import Mathlib

/-!
Shallow embedding of the bitmap16dx canvas/sketch persistence core
(`src/main.cpp`): the Sketch data model, the binary sketch codec,
palette collapse / color resolution, the undo buffer, the flood fill
engine, the palette text-file parser, and the PNG export pipeline's
control flow.  Machine integers (`uint8_t`, `uint16_t`, `int`) are
modelled as `Nat`; all values that matter stay far below any overflow
boundary and well-formedness hypotheses record the C types' ranges
where a theorem needs them.
-/

namespace Bitmap16dx

/-! ## Constants (`main.cpp` lines 77-79) -/

def SKETCH_FORMAT_VERSION : Nat := 2
def SKETCH_FILE_SIZE_V1 : Nat := 290
def SKETCH_FILE_SIZE_V2 : Nat := 291

/-! ## Sketch data model (`struct Sketch`, main.cpp lines 273-280) -/

@[ext]
structure Sketch where
  pixels : Fin 16 → Fin 16 → Nat
  gridSize : Nat
  paletteSize : Nat
  paletteColors : Fin 16 → Nat
  isEmpty : Bool
  deriving DecidableEq

/-- C array indexing helper: all fixed arrays in the source have
capacity 16, and every access a claim touches is in range, so the
wrap-around introduced by `% 16` is never exercised. -/
def arrIdx (n : Nat) : Fin 16 := ⟨n % 16, Nat.mod_lt n (by norm_num)⟩

/-! ## Color collapse and resolution (main.cpp lines 568-592) -/

def collapseIndex (index paletteSize : Nat) : Nat :=
  if index = 0 then 0
  else if index ≤ paletteSize then index
  else (index - 1) % paletteSize + 1

def getActiveSketchPixelColor (s : Sketch) (pixelIndex : Nat) : Nat :=
  if pixelIndex = 0 then 0
  else
    let pixelIndex :=
      if s.paletteSize < 16 ∧ s.paletteSize < pixelIndex then
        collapseIndex pixelIndex s.paletteSize
      else pixelIndex
    s.paletteColors (arrIdx (pixelIndex - 1))

/-! ## Sketch codec

`saveActiveSketchToSD` (lines 859-876) writes the byte stream
`version, gridSize, paletteSize, 16 × (hi, lo) palette bytes,
256 pixel bytes`; `loadSketchFromSD` (lines 924-965) classifies the
stream by length and version byte and reads the fields back in the
same order.  Sequential `file.read()` calls are positional reads of
the byte list. -/

def writeColorBytes (c : Nat) : List Nat := [(c >>> 8) &&& 0xFF, c &&& 0xFF]

def sketchPaletteList (s : Sketch) : List Nat :=
  (List.finRange 16).map s.paletteColors

def sketchPixelList (s : Sketch) : List Nat :=
  (List.finRange 16).flatMap (fun y => (List.finRange 16).map (fun x => s.pixels y x))

def encodeSketchBytes (s : Sketch) : List Nat :=
  SKETCH_FORMAT_VERSION :: s.gridSize :: s.paletteSize ::
    ((sketchPaletteList s).flatMap writeColorBytes ++ sketchPixelList s)

/-- The field reads shared by both format versions (main.cpp lines
947-961); `body` is the stream after the optional version byte.  The
decoder unconditionally sets `isEmpty := false` (line 965). -/
def decodeSketchBody (body : List Nat) : Sketch where
  gridSize := body.getD 0 0
  paletteSize := body.getD 1 0
  paletteColors := fun i => ((body.getD (2 + 2 * i.val) 0) <<< 8) ||| body.getD (2 + 2 * i.val + 1) 0
  pixels := fun y x => body.getD (34 + 16 * y.val + x.val) 0
  isEmpty := false

def decodeSketchBytes (bytes : List Nat) : Option Sketch :=
  if bytes.length = SKETCH_FILE_SIZE_V2 then
    if bytes.getD 0 0 = SKETCH_FORMAT_VERSION then
      some (decodeSketchBody (bytes.drop 1))
    else none
  else if bytes.length = SKETCH_FILE_SIZE_V1 then
    some (decodeSketchBody bytes)
  else none

/-! ## Editor state and status messages

The globals of main.cpp that the core operations mutate: `canvas`,
the undo slot (lines 257-263), `currentGridSize`/`currentCellSize`,
cursor, the active sketch, SD availability and the transient status
text set by `setStatusMessage`. -/

inductive StatusMsg where
  | idle
  | sdNotReady
  | failedToSave
  | saved
  | fileNotFound
  | fileOpenFail
  | fileCorrupt
  | outOfMemory
  | pngAllocFail
  | pngOpenErr (rc : Int)
  | pngInitErr (rc : Int)
  | addLineErr (rc : Int)
  | pngEncodeFail
  | tooManyExports
  | exported
  | writeIncomplete
  | noUndo
  | undoDone
  | cleared
  deriving DecidableEq

structure EditorState where
  canvas : Fin 16 → Fin 16 → Nat
  undoCanvas : Fin 16 → Fin 16 → Nat
  undoAvailable : Bool
  undoPaletteSize : Nat
  undoPaletteColors : Fin 16 → Nat
  undoGridSize : Nat
  currentGridSize : Nat
  currentCellSize : Nat
  cursorX : Nat
  cursorY : Nat
  activeSketch : Sketch
  activeSketchFilename : String
  activeSketchIsNew : Bool
  sdCardAvailable : Bool
  statusMsg : StatusMsg
  canvasNeedsUpdate : Bool
  deriving DecidableEq

/-! ## Undo buffer (main.cpp lines 1455-1508) -/

/-- `saveUndo` (lines 1455-1465): copies only the
`currentGridSize × currentGridSize` region of `canvas` into
`undoCanvas` (the loops run to `currentGridSize`, not 16), clears the
palette/grid-size snapshot fields, and arms the slot. -/
def saveUndo (st : EditorState) : EditorState :=
  { st with
    undoCanvas := fun y x =>
      if y.val < st.currentGridSize ∧ x.val < st.currentGridSize then st.canvas y x
      else st.undoCanvas y x
    undoPaletteSize := 0
    undoGridSize := 0
    undoAvailable := true }

/-- `restoreUndo` (lines 1470-1508). -/
def restoreUndo (st : EditorState) : EditorState :=
  if st.undoAvailable = false then { st with statusMsg := .noUndo }
  else
    let st :=
      if 0 < st.undoGridSize then
        let g := st.undoGridSize
        { st with
          currentGridSize := g
          currentCellSize := if g = 8 then 16 else 8
          cursorX := if g ≤ st.cursorX then g - 1 else st.cursorX
          cursorY := if g ≤ st.cursorY then g - 1 else st.cursorY }
      else st
    let st := { st with canvas := st.undoCanvas }
    let st :=
      if 0 < st.undoPaletteSize then
        { st with activeSketch :=
          { st.activeSketch with
            paletteSize := st.undoPaletteSize
            gridSize := st.undoGridSize
            paletteColors := st.undoPaletteColors } }
      else st
    { st with undoAvailable := false, canvasNeedsUpdate := true, statusMsg := .undoDone }

/-! ## Flood fill (main.cpp lines 1539-1606)

The state carries, besides the data of the source (`canvas`, the
`visited` bitmap and the explicit stack of `{x, y}` points), two
instrumentation fields: `pushCount` counts `stack[stackSize++]`
executions and `touched` logs every canvas cell index the algorithm
reads or writes, so that the claim's push-count and
no-out-of-bounds-access properties are statable. -/

structure FFState where
  canvas : Fin 16 → Fin 16 → Nat
  visited : Fin 16 → Fin 16 → Bool
  stack : List (Nat × Nat)
  pushCount : Nat
  touched : List (Nat × Nat)

def setCell (c : Fin 16 → Fin 16 → Nat) (y x : Fin 16) (v : Nat) :
    Fin 16 → Fin 16 → Nat :=
  fun y' x' => if y' = y ∧ x' = x then v else c y' x'

def setVisited (c : Fin 16 → Fin 16 → Bool) (y x : Fin 16) :
    Fin 16 → Fin 16 → Bool :=
  fun y' x' => if y' = y ∧ x' = x then true else c y' x'

/-- `stack[stackSize++] = q; visited[q.y][q.x] = true;` -/
def ffPush (q : Nat × Nat) (s : FFState) : FFState :=
  { s with
    stack := q :: s.stack
    visited := setVisited s.visited (arrIdx q.2) (arrIdx q.1)
    pushCount := s.pushCount + 1 }

/-- One conditional neighbor push: `if (guard && !visited[q.y][q.x])
{ stack[stackSize++] = q; visited[q.y][q.x] = true; }`. -/
def condPush (cond : Prop) [Decidable cond] (q : Nat × Nat) (s : FFState) : FFState :=
  if cond ∧ s.visited (arrIdx q.2) (arrIdx q.1) = false then ffPush q s else s

/-- The four conditional neighbor pushes (lines 1585-1604), in source
order: up, down, left, right. `p` is `(x, y)`. -/
def ffPushNeighbors (g : Nat) (p : Nat × Nat) (s : FFState) : FFState :=
  condPush (p.1 < g - 1) (p.1 + 1, p.2)
    (condPush (0 < p.1) (p.1 - 1, p.2)
      (condPush (p.2 < g - 1) (p.1, p.2 + 1)
        (condPush (0 < p.2) (p.1, p.2 - 1) s)))

/-- The `while (stackSize > 0)` loop (lines 1566-1605), with explicit
fuel; `FF_FUEL` dominates the maximal iteration count (each iteration
pops one entry and at most `16 × 16` pushes can ever happen thanks to
the `visited` dedup, proved below). -/
def ffLoop (g orig fill : Nat) : Nat → FFState → FFState
  | 0, s => s
  | fuel + 1, s =>
    match s.stack with
    | [] => s
    | p :: rest =>
      let s := { s with stack := rest }
      if p.1 < 0 ∨ g ≤ p.1 ∨ p.2 < 0 ∨ g ≤ p.2 then ffLoop g orig fill fuel s
      else
        let s := { s with touched := p :: s.touched }
        if s.canvas (arrIdx p.2) (arrIdx p.1) ≠ orig then ffLoop g orig fill fuel s
        else
          let s := { s with canvas := setCell s.canvas (arrIdx p.2) (arrIdx p.1) fill }
          ffLoop g orig fill fuel (ffPushNeighbors g p s)

def FF_FUEL : Nat := 600

def floodFill (g : Nat) (canvas : Fin 16 → Fin 16 → Nat)
    (startX startY fillColor : Nat) : FFState :=
  let originalColor := canvas (arrIdx startY) (arrIdx startX)
  let s0 : FFState :=
    { canvas := canvas
      visited := fun _ _ => false
      stack := []
      pushCount := 0
      touched := [(startX, startY)] }
  if originalColor = fillColor then s0
  else ffLoop g originalColor fillColor FF_FUEL (ffPush (startX, startY) s0)

/-! ## PNG export pixel color (main.cpp lines 1073-1098)

The export loop reads the color index from `canvas` and, for a
non-transparent index, looks up `activeSketch.paletteColors[colorIndex - 1]`
directly (line 1082) — without `collapseIndex` — then expands RGB565
to RGB888 by bit replication. -/

def rgb565ToRGB888 (color565 : Nat) : Nat × Nat × Nat :=
  let r := (color565 >>> 11) &&& 0x1F
  let r := (r <<< 3) ||| (r >>> 2)
  let g := (color565 >>> 5) &&& 0x3F
  let g := (g <<< 2) ||| (g >>> 4)
  let b := color565 &&& 0x1F
  let b := (b <<< 3) ||| (b >>> 2)
  (r, g, b)

def exportPixelRGBA (s : Sketch) (colorIndex : Nat) : Nat × Nat × Nat × Nat :=
  if colorIndex = 0 then (0, 0, 0, 0)
  else
    let color565 := s.paletteColors (arrIdx (colorIndex - 1))
    let rgb := rgb565ToRGB888 color565
    (rgb.1, rgb.2.1, rgb.2.2, 255)

/-! ## PNG export pipeline control flow (main.cpp lines 983-1167)

The collaborators (SD card, `malloc`, the PNGENC encoder, the
filesystem) are an oracle `ExportEnv`; the pipeline's branching,
status messages and the filename probe are translated from the
source.  Scanline pixel data never influences control flow, so the
outcome only records which file suffix (of the
`/bitmap16dx/exports/dx_%04d.png` pattern) was written to, if any. -/

def PNG_SUCCESS : Int := 0

structure ExportEnv where
  initOk : Bool
  mallocPngBuffer : Bool
  mallocLineRGB : Bool
  newPngEnc : Bool
  openRc : Int
  mallocLineRGBA : Bool
  encodeBeginRc : Int
  addLineRc : Nat → Int
  closeSize : Int
  exportExists : Nat → Bool
  openFileOk : Bool
  writtenBytes : Nat

structure ExportOutcome where
  ok : Bool
  st : EditorState
  writtenSuffix : Option Nat

/-- The filename probe (lines 1135-1140):
`do { snprintf(filename, …, exportNum); exportNum++; }
while (SD.exists(filename) && exportNum < 10000);`
Returns (suffix in the last-formatted filename, final `exportNum`).
The fuel `10000` dominates the loop count, whose condition requires
`exportNum < 10000` to continue. -/
def probeExportNum (ex : Nat → Bool) : Nat → Nat → Nat × Nat
  | 0, n => (n, n + 1)
  | fuel + 1, n => if ex n ∧ n + 1 < 10000 then probeExportNum ex fuel (n + 1) else (n, n + 1)

/-- `if (!sdCardAvailable && !initSDCard()) … ` has already been
checked; when `sdCardAvailable` was false, `initSDCard()` ran and set
it to the mount result. -/
def sdInitUpdate (initOk : Bool) (st : EditorState) : EditorState :=
  if st.sdCardAvailable = false then { st with sdCardAvailable := initOk } else st

/-- The pipeline from the PNG-buffer allocation on (lines 999-1166),
on the state after the SD-init gate.  `outputSize` (line 1007) is
`scale ? 128 : currentGridSize`. -/
def exportAfterInit (env : ExportEnv) (st : EditorState) (scale : Bool) : ExportOutcome :=
  if env.mallocPngBuffer = false then
    { ok := false, st := { st with statusMsg := .outOfMemory }, writtenSuffix := none }
  else if env.mallocLineRGB = false then
    { ok := false, st := { st with statusMsg := .outOfMemory }, writtenSuffix := none }
  else if env.newPngEnc = false then
    { ok := false, st := { st with statusMsg := .pngAllocFail }, writtenSuffix := none }
  else if env.openRc ≠ PNG_SUCCESS then
    { ok := false, st := { st with statusMsg := .pngOpenErr env.openRc }, writtenSuffix := none }
  else if env.mallocLineRGBA = false then
    { ok := false, st := { st with statusMsg := .outOfMemory }, writtenSuffix := none }
  else if env.encodeBeginRc ≠ PNG_SUCCESS then
    { ok := false, st := { st with statusMsg := .pngInitErr env.encodeBeginRc }, writtenSuffix := none }
  else
    match (List.range (if scale then 128 else st.currentGridSize)).find?
        (fun y => env.addLineRc y ≠ PNG_SUCCESS) with
    | some y =>
      { ok := false, st := { st with statusMsg := .addLineErr (env.addLineRc y) },
        writtenSuffix := none }
    | none =>
      if env.closeSize ≤ 0 then
        { ok := false, st := { st with statusMsg := .pngEncodeFail }, writtenSuffix := none }
      else if 10000 ≤ (probeExportNum env.exportExists 10000 0).2 then
        { ok := false, st := { st with statusMsg := .tooManyExports }, writtenSuffix := none }
      else if env.openFileOk = false then
        { ok := false, st := { st with statusMsg := .fileOpenFail }, writtenSuffix := none }
      else if env.writtenBytes ≠ env.closeSize.toNat then
        { ok := false, st := { st with statusMsg := .writeIncomplete },
          writtenSuffix := some (probeExportNum env.exportExists 10000 0).1 }
      else
        { ok := true, st := { st with statusMsg := .exported },
          writtenSuffix := some (probeExportNum env.exportExists 10000 0).1 }

def exportCanvasToPNG (env : ExportEnv) (st : EditorState) (scale : Bool) : ExportOutcome :=
  if st.sdCardAvailable = false ∧ env.initOk = false then
    { ok := false, st := { st with statusMsg := .sdNotReady }, writtenSuffix := none }
  else exportAfterInit env (sdInitUpdate env.initOk st) scale

/-! ## Loading a sketch (main.cpp lines 898-970) -/

structure LoadEnv where
  initOk : Bool
  cardPresent : Bool
  fileExists : Bool
  openOk : Bool
  bytes : List Nat

/-- Lines 905-969, after the SD-init gate. -/
def loadAfterInit (env : LoadEnv) (st : EditorState) (filename : String) :
    Bool × EditorState :=
  if env.cardPresent = false then
    (false, { st with sdCardAvailable := false, statusMsg := .sdNotReady })
  else if env.fileExists = false then
    (false, { st with statusMsg := .fileNotFound })
  else if env.openOk = false then
    (false, { st with statusMsg := .fileOpenFail })
  else
    match decodeSketchBytes env.bytes with
    | none => (false, { st with statusMsg := .fileCorrupt })
    | some sk =>
      (true, { st with
        activeSketch := sk
        activeSketchFilename := filename
        activeSketchIsNew := false })

def loadSketchFromSD (env : LoadEnv) (st : EditorState) (filename : String) :
    Bool × EditorState :=
  if st.sdCardAvailable = false ∧ env.initOk = false then
    (false, { st with statusMsg := .sdNotReady })
  else loadAfterInit env (sdInitUpdate env.initOk st) filename

/-! ## Palette text-file parsing (`loadPaletteFromHex`, main.cpp lines 3216-3261)

Lines are modelled as `List Char` (Arduino `String`); `strtol(line, NULL, 16)`
is modelled as longest-hex-digit-prefix parsing (the optional sign and
`0x` prefix that `strtol` would also accept are not exercised by any
claim input). -/

def isSpaceChar (c : Char) : Bool :=
  c = ' ' ∨ c = '\t' ∨ c = '\n' ∨ c = '\r' ∨ c.toNat = 11 ∨ c.toNat = 12

def trimChars (l : List Char) : List Char :=
  ((l.dropWhile isSpaceChar).reverse.dropWhile isSpaceChar).reverse

def hexVal (c : Char) : Option Nat :=
  if '0' ≤ c ∧ c ≤ '9' then some (c.toNat - 48)
  else if 'a' ≤ c ∧ c ≤ 'f' then some (c.toNat - 87)
  else if 'A' ≤ c ∧ c ≤ 'F' then some (c.toNat - 55)
  else none

def strtolHexGo : List Char → Nat → Nat
  | [], acc => acc
  | c :: cs, acc =>
    match hexVal c with
    | some v => strtolHexGo cs (16 * acc + v)
    | none => acc

def strtolHex (l : List Char) : Nat := strtolHexGo l 0

def RGB565 (r g b : Nat) : Nat :=
  (((r >>> 3) <<< 11) ||| ((g >>> 2) <<< 5)) ||| (b >>> 3)

/-- The 6-character check and `strtol`/`RGB565` conversion
(lines 3233-3242), applied to the line after comment/`#` stripping. -/
def processHexColor (acc : List Nat) (line : List Char) : List Nat :=
  if line.length ≠ 6 then acc
  else
    acc ++ [RGB565 ((strtolHex line) >>> 16 &&& 0xFF)
                   ((strtolHex line) >>> 8 &&& 0xFF)
                   ((strtolHex line) &&& 0xFF)]

/-- The empty/comment filters and the optional `#` strip
(lines 3227-3230), applied to the trimmed line. -/
def processHexLineBody (acc : List Nat) (line : List Char) : List Nat :=
  if line.length = 0 ∨ line.take 2 = ['/', '/'] then acc
  else processHexColor acc (if line.take 1 = ['#'] then line.drop 1 else line)

/-- One iteration of the `while (file.available() && colorCount < 16)`
line loop (lines 3222-3243); once 16 colors are present no further
line is consumed, which a fold models by leaving the accumulator
unchanged. -/
def processHexLine (acc : List Nat) (line : List Char) : List Nat :=
  if acc.length < 16 then processHexLineBody acc (trimChars line) else acc

/-- Cyclic fill of the remaining slots (lines 3255-3257):
`for (i = colorCount; i < 16; i++) colors[i] = colors[i % colorCount]`. -/
def cyclicFill (parsed : List Nat) : List Nat :=
  parsed ++ (List.range (16 - parsed.length)).map
    (fun k => parsed.getD ((parsed.length + k) % parsed.length) 0)

/-- Returns `some (colors[16], size)` on success, `none` when the file
fails to open or the color count is not 4, 8 or 16. -/
def loadPaletteFromHex (openOk : Bool) (lines : List (List Char)) :
    Option (List Nat × Nat) :=
  if openOk = false then none
  else
    let parsed := lines.foldl processHexLine []
    let colorCount := parsed.length
    if colorCount ≠ 4 ∧ colorCount ≠ 8 ∧ colorCount ≠ 16 then none
    else some (cyclicFill parsed, colorCount)

/-! ## Proof-infrastructure predicates for the flood fill -/

/-- 4-connectivity: `q` is the cell directly above, below, left or
right of `p` (both as `(x, y)`). -/
def isNeighbor (q p : Nat × Nat) : Prop :=
  (q.1 = p.1 ∧ (q.2 + 1 = p.2 ∨ p.2 + 1 = q.2)) ∨
  (q.2 = p.2 ∧ (q.1 + 1 = p.1 ∨ p.1 + 1 = q.1))

instance (q p : Nat × Nat) : Decidable (isNeighbor q p) := by
  unfold isNeighbor
  infer_instance

/-- Number of cells of the 16×16 grid marked in the visited bitmap. -/
def visitedCard (s : FFState) : Nat :=
  (Finset.univ.filter (fun c : Fin 16 × Fin 16 => s.visited c.1 c.2 = true)).card

/-- Loop variant: each iteration pops one entry and each push marks a
fresh cell visited, so this strictly decreases. -/
def ffMeasure (s : FFState) : Nat := 2 * (256 - visitedCard s) + s.stack.length

/-- Loop invariant of `ffLoop` for a run whose reachable region is
uniformly `orig` (the uniform-canvas flood fill): stack entries are
in-bounds, visited, pairwise distinct and still hold `orig`; a cell is
visited exactly when it is on the stack or already filled; in-bounds
cells hold `orig` or `fill`; every filled cell has all its in-bounds
neighbors visited; and the push counter equals the visited count. -/
structure FFInv (g orig fill : Nat) (s : FFState) : Prop where
  stack_bounds : ∀ q ∈ s.stack, q.1 < g ∧ q.2 < g
  stack_visited : ∀ q ∈ s.stack, s.visited (arrIdx q.2) (arrIdx q.1) = true
  stack_nodup : s.stack.Nodup
  stack_orig : ∀ q ∈ s.stack, s.canvas (arrIdx q.2) (arrIdx q.1) = orig
  visited_iff : ∀ y x : Fin 16, s.visited y x = true ↔
    ((x.val, y.val) ∈ s.stack ∨ (y.val < g ∧ x.val < g ∧ s.canvas y x = fill))
  canvas_vals : ∀ y x : Fin 16, y.val < g → x.val < g →
    s.canvas y x = orig ∨ s.canvas y x = fill
  done_closed : ∀ y x : Fin 16, y.val < g → x.val < g → s.canvas y x = fill →
    ∀ q : Nat × Nat, q.1 < g → q.2 < g → isNeighbor q (x.val, y.val) →
      s.visited (arrIdx q.2) (arrIdx q.1) = true
  push_card : s.pushCount = visitedCard s

/-- What each `condPush` in `ffPushNeighbors` preserves, relative to
the state `s0` entered at the start of the neighbor-push sequence. -/
structure PushChainInv (g orig fill : Nat) (s0 s : FFState) : Prop where
  canvas_eq : s.canvas = s0.canvas
  touched_eq : s.touched = s0.touched
  visited_mono : ∀ y x : Fin 16, s0.visited y x = true → s.visited y x = true
  stack_bounds : ∀ q ∈ s.stack, q.1 < g ∧ q.2 < g
  stack_visited : ∀ q ∈ s.stack, s.visited (arrIdx q.2) (arrIdx q.1) = true
  stack_nodup : s.stack.Nodup
  stack_orig : ∀ q ∈ s.stack, s.canvas (arrIdx q.2) (arrIdx q.1) = orig
  visited_iff : ∀ y x : Fin 16, s.visited y x = true ↔
    ((x.val, y.val) ∈ s.stack ∨ (y.val < g ∧ x.val < g ∧ s.canvas y x = fill))
  push_card : s.pushCount = visitedCard s
  count_stack : s.stack.length + s0.pushCount = s0.stack.length + s.pushCount

/-! ## Concrete inputs used to exercise the theorems -/

def blankSketch : Sketch where
  pixels := fun _ _ => 0
  gridSize := 16
  paletteSize := 16
  paletteColors := fun i => i.val
  isEmpty := false

def emptyFlagSketch : Sketch := { blankSketch with isEmpty := true }

def baseEditorState : EditorState where
  canvas := fun _ _ => 0
  undoCanvas := fun _ _ => 0
  undoAvailable := false
  undoPaletteSize := 0
  undoPaletteColors := fun _ => 0
  undoGridSize := 0
  currentGridSize := 16
  currentCellSize := 8
  cursorX := 0
  cursorY := 0
  activeSketch := blankSketch
  activeSketchFilename := ""
  activeSketchIsNew := true
  sdCardAvailable := false
  statusMsg := .idle
  canvasNeedsUpdate := false

/-- An 8×8-mode state whose canvas carries a mark at the out-of-mode
cell (15,15) while the undo buffer holds stale zeros there. -/
def cexUndoState : EditorState :=
  { baseEditorState with
    currentGridSize := 8
    currentCellSize := 16
    canvas := fun y x => if y.val = 15 ∧ x.val = 15 then 5 else 0 }

/-- `cexUndoState` after `saveUndo()` followed by a canvas mutation. -/
def cexUndoMutated : EditorState :=
  { saveUndo cexUndoState with canvas := fun _ _ => 1 }

/-- An export environment where every collaborator succeeds and the
export suffixes 0..2 are already taken. -/
def okExportEnv : ExportEnv where
  initOk := true
  mallocPngBuffer := true
  mallocLineRGB := true
  newPngEnc := true
  openRc := 0
  mallocLineRGBA := true
  encodeBeginRc := 0
  addLineRc := fun _ => 0
  closeSize := 1000
  exportExists := fun n => n < 3
  openFileOk := true
  writtenBytes := 1000

def failExportEnv : ExportEnv := { okExportEnv with mallocPngBuffer := false }

/-- Storage where every export suffix 0..9998 is in use and only
dx_9999 is free. -/
def cexExportEnv : ExportEnv := { okExportEnv with exportExists := fun n => n ≤ 9998 }

def failLoadEnv : LoadEnv where
  initOk := true
  cardPresent := true
  fileExists := false
  openOk := true
  bytes := []

/-- A 4-color sketch whose palette slot 5 (index 4) differs from the
slot that `collapseIndex` would select for pixel index 5. -/
def c10Sketch : Sketch :=
  { blankSketch with
    paletteSize := 4
    paletteColors := fun i => if i.val = 4 then 0xFFFF else 0 }

/-- A palette file with four valid 6-hex-digit lines. -/
def c7Lines : List (List Char) :=
  [['#', 'F', 'F', '0', '0', '0', '0'],
   ['0', '0', 'F', 'F', '0', '0'],
   ['0', '0', '0', '0', 'F', 'F'],
   ['F', 'F', 'F', 'F', 'F', 'F']]

/-- An isolated start cell: (0,0) holds color 5, everything else 7. -/
def c5IsoCanvas : Fin 16 → Fin 16 → Nat :=
  fun y x => if y.val = 0 ∧ x.val = 0 then 5 else 7

/-- A palette file with four 6-character lines that are not hex
colors. -/
def c7BadLines : List (List Char) :=
  List.replicate 4 ['G', 'G', 'G', 'G', 'G', 'G']

/-! # Theorems -/

/-! ## Codec helper lemmas -/

theorem hexCombineSplit (c : Nat) (hc : c < 65536) :
    (((c >>> 8) &&& 0xFF) <<< 8) ||| (c &&& 0xFF) = c := by
  have h255 : (0xFF : Nat) = 2 ^ 8 - 1 := by norm_num
  rw [h255, Nat.and_pow_two_sub_one_eq_mod, Nat.and_pow_two_sub_one_eq_mod,
    Nat.shiftRight_eq_div_pow, Nat.shiftLeft_eq]
  have hdiv : c / 2 ^ 8 % 2 ^ 8 = c / 2 ^ 8 := by
    apply Nat.mod_eq_of_lt
    apply Nat.div_lt_of_lt_mul
    norm_num
    omega
  rw [hdiv, Nat.mul_comm, ← Nat.mul_add_lt_is_or (Nat.mod_lt _ (by norm_num)) _]
  exact Nat.div_add_mod c (2 ^ 8)

theorem flatMap_const_length {α : Type} (L : Nat) (l : List α) (f : α → List Nat)
    (hf : ∀ a, (f a).length = L) : (l.flatMap f).length = L * l.length := by
  induction l with
  | nil => simp
  | cons a t ih => simp [List.flatMap_cons, ih, hf]; ring

theorem flatMap_blocks_getD {α : Type} (L : Nat) (l : List α) (f : α → List Nat)
    (hf : ∀ a, (f a).length = L) (q r : Nat) (hq : q < l.length) (hr : r < L) :
    (l.flatMap f).getD (L * q + r) 0 = (f (l.get ⟨q, hq⟩)).getD r 0 := by
  induction l generalizing q with
  | nil => simp at hq
  | cons a t ih =>
    cases q with
    | zero =>
      simp only [List.flatMap_cons, Nat.mul_zero, Nat.zero_add]
      rw [List.getD_append _ _ _ _ (by rw [hf]; exact hr)]
      rfl
    | succ q' =>
      simp only [List.flatMap_cons]
      rw [List.getD_append_right _ _ _ _ (by rw [hf]; nlinarith)]
      have harith : L * (q' + 1) + r - (f a).length = L * q' + r := by
        rw [hf]; ring_nf; omega
      rw [harith]
      exact ih q' (by simpa using hq)

theorem sketchPaletteList_length (s : Sketch) : (sketchPaletteList s).length = 16 := by
  simp [sketchPaletteList]

theorem sketchPaletteList_get (s : Sketch) (i : Fin 16) (h : i.val < (sketchPaletteList s).length) :
    (sketchPaletteList s).get ⟨i.val, h⟩ = s.paletteColors i := by
  simp [sketchPaletteList]

theorem encode_palette_bytes_getD_hi (s : Sketch) (i : Fin 16) :
    ((sketchPaletteList s).flatMap writeColorBytes).getD (2 * i.val) 0 =
      (s.paletteColors i >>> 8) &&& 0xFF := by
  have h := flatMap_blocks_getD 2 (sketchPaletteList s) writeColorBytes
    (fun _ => rfl) i.val 0 (by rw [sketchPaletteList_length]; exact i.isLt) (by norm_num)
  rw [Nat.add_zero] at h
  rw [h, sketchPaletteList_get]
  rfl

theorem encode_palette_bytes_getD_lo (s : Sketch) (i : Fin 16) :
    ((sketchPaletteList s).flatMap writeColorBytes).getD (2 * i.val + 1) 0 =
      s.paletteColors i &&& 0xFF := by
  have h := flatMap_blocks_getD 2 (sketchPaletteList s) writeColorBytes
    (fun _ => rfl) i.val 1 (by rw [sketchPaletteList_length]; exact i.isLt) (by norm_num)
  rw [h, sketchPaletteList_get]
  rfl

theorem sketchPixelList_length (s : Sketch) : (sketchPixelList s).length = 256 := by
  have h := flatMap_const_length 16 (List.finRange 16)
    (fun y => (List.finRange 16).map (fun x => s.pixels y x)) (fun _ => by simp)
  simpa [sketchPixelList] using h

theorem sketchPixelList_getD (s : Sketch) (y x : Fin 16) :
    (sketchPixelList s).getD (16 * y.val + x.val) 0 = s.pixels y x := by
  have h := flatMap_blocks_getD 16 (List.finRange 16)
    (fun y => (List.finRange 16).map (fun x => s.pixels y x)) (fun _ => by simp)
    y.val x.val (by simp) x.isLt
  rw [show (sketchPixelList s) = (List.finRange 16).flatMap
    (fun y => (List.finRange 16).map (fun x => s.pixels y x)) from rfl, h]
  rw [List.getD_eq_getElem _ _ (by simp)]
  simp [List.get_finRange]

theorem encodeSketchBytes_length (s : Sketch) : (encodeSketchBytes s).length = 291 := by
  have h1 := flatMap_const_length 2 (sketchPaletteList s) writeColorBytes (fun _ => rfl)
  simp [encodeSketchBytes, h1, sketchPaletteList_length, sketchPixelList_length]

/-- Decoding the exact byte stream the encoder produces restores every
field except `isEmpty`, which the decoder always sets to `false`
(main.cpp line 965). -/
theorem decode_encode (s : Sketch) (hpal : ∀ i, s.paletteColors i < 65536) :
    decodeSketchBytes (encodeSketchBytes s) = some { s with isEmpty := false } := by
  have hlen := encodeSketchBytes_length s
  have hver : (encodeSketchBytes s).getD 0 0 = SKETCH_FORMAT_VERSION := rfl
  unfold decodeSketchBytes
  rw [hlen, hver, if_pos rfl, if_pos (show (291 : Nat) = SKETCH_FILE_SIZE_V2 from rfl)]
  refine congrArg some (Sketch.ext ?_ ?_ ?_ ?_ ?_)
  · funext y x
    show ((encodeSketchBytes s).drop 1).getD (34 + 16 * y.val + x.val) 0 = s.pixels y x
    have hidx : 34 + 16 * y.val + x.val = (32 + (16 * y.val + x.val)) + 1 + 1 := by omega
    rw [show ((encodeSketchBytes s).drop 1) = s.gridSize :: s.paletteSize ::
      ((sketchPaletteList s).flatMap writeColorBytes ++ sketchPixelList s) from rfl,
      hidx, List.getD_cons_succ, List.getD_cons_succ,
      List.getD_append_right _ _ _ _
        (by rw [flatMap_const_length 2 _ writeColorBytes (fun _ => rfl), sketchPaletteList_length]; omega)]
    rw [show 32 + (16 * y.val + x.val) -
      ((sketchPaletteList s).flatMap writeColorBytes).length = 16 * y.val + x.val by
      rw [flatMap_const_length 2 _ writeColorBytes (fun _ => rfl), sketchPaletteList_length]; omega]
    exact sketchPixelList_getD s y x
  · rfl
  · rfl
  · funext i
    show (((encodeSketchBytes s).drop 1).getD (2 + 2 * i.val) 0 <<< 8) |||
      ((encodeSketchBytes s).drop 1).getD (2 + 2 * i.val + 1) 0 = s.paletteColors i
    have hpallen : ((sketchPaletteList s).flatMap writeColorBytes).length = 32 := by
      rw [flatMap_const_length 2 _ writeColorBytes (fun _ => rfl), sketchPaletteList_length]
    have hi := i.isLt
    rw [show ((encodeSketchBytes s).drop 1) = s.gridSize :: s.paletteSize ::
      ((sketchPaletteList s).flatMap writeColorBytes ++ sketchPixelList s) from rfl]
    rw [show 2 + 2 * i.val = (2 * i.val) + 1 + 1 by omega,
      show (2 * i.val) + 1 + 1 + 1 = (2 * i.val + 1) + 1 + 1 by omega]
    rw [List.getD_cons_succ, List.getD_cons_succ, List.getD_cons_succ, List.getD_cons_succ]
    rw [List.getD_append _ _ _ _ (by omega), List.getD_append _ _ _ _ (by omega)]
    rw [encode_palette_bytes_getD_hi, encode_palette_bytes_getD_lo]
    exact hexCombineSplit _ (hpal i)
  · rfl

/-! ## C1: encode/decode round trip -/

/-- C1 (amended): for every well-formed Sketch (paletteSize in
{4,8,16}, gridSize in {8,16}, pixel indices in [0,16], 16-bit palette
colors), decoding the 291-byte stream produced by encoding restores
pixels, gridSize, paletteSize and all 16 palette colors exactly, but
the decoder always sets isEmpty to false; the round trip is therefore
exact in every field, isEmpty included, precisely when the encoded
sketch has isEmpty = false. -/
theorem C1_encode_decode_roundtrip (s : Sketch)
    (hps : s.paletteSize = 4 ∨ s.paletteSize = 8 ∨ s.paletteSize = 16)
    (hg : s.gridSize = 8 ∨ s.gridSize = 16)
    (hpix : ∀ y x, s.pixels y x ≤ 16)
    (hpal : ∀ i, s.paletteColors i < 65536) :
    decodeSketchBytes (encodeSketchBytes s) = some { s with isEmpty := false } ∧
    (s.isEmpty = false → decodeSketchBytes (encodeSketchBytes s) = some s) := by
  have h := decode_encode s hpal
  refine ⟨h, fun hie => ?_⟩
  rw [h]
  cases s
  simp_all

/-- Exercises `C1_encode_decode_roundtrip` on a concrete sketch. -/
theorem C1_encode_decode_roundtrip_witness :
    decodeSketchBytes (encodeSketchBytes blankSketch) = some blankSketch :=
  (C1_encode_decode_roundtrip blankSketch (by right; right; rfl) (by right; rfl)
    (fun _ _ => by simp [blankSketch])
    (fun i => by simp only [blankSketch]; exact lt_trans i.isLt (by norm_num))).2 rfl

/-- C1 as stated is false: a well-formed sketch with `isEmpty = true`
does not survive the round trip, because the decoder (main.cpp line
965) unconditionally sets `isEmpty = false`. -/
theorem C1_encode_decode_roundtrip_cex :
    decodeSketchBytes (encodeSketchBytes emptyFlagSketch) ≠ some emptyFlagSketch := by
  have h := decode_encode emptyFlagSketch
    (fun i => by simp only [emptyFlagSketch, blankSketch]; exact lt_trans i.isLt (by norm_num))
  rw [h]
  intro hc
  have h3 := congrArg Sketch.isEmpty (Option.some.inj hc)
  simp [emptyFlagSketch, blankSketch] at h3

/-! ## C2: decode classification by length and version byte -/

/-- C2: decode classifies the stream solely by length and version
byte: 290 bytes parse as version 1 starting at gridSize (byte 0);
291 bytes parse as version 2 (body from byte 1) only when the first
byte equals the supported version constant 2, and are rejected
otherwise; every other length is rejected. -/
theorem C2_decode_classification :
    (∀ bytes : List Nat, bytes.length = 290 →
      decodeSketchBytes bytes = some (decodeSketchBody bytes) ∧
      (decodeSketchBody bytes).gridSize = bytes.getD 0 0 ∧
      (decodeSketchBody bytes).paletteSize = bytes.getD 1 0) ∧
    (∀ bytes : List Nat, bytes.length = 291 → bytes.getD 0 0 = SKETCH_FORMAT_VERSION →
      decodeSketchBytes bytes = some (decodeSketchBody (bytes.drop 1))) ∧
    (∀ bytes : List Nat, bytes.length = 291 → bytes.getD 0 0 ≠ SKETCH_FORMAT_VERSION →
      decodeSketchBytes bytes = none) ∧
    (∀ bytes : List Nat, bytes.length ≠ 290 → bytes.length ≠ 291 →
      decodeSketchBytes bytes = none) := by
  refine ⟨fun bytes h => ?_, fun bytes h hv => ?_, fun bytes h hv => ?_, fun bytes h h' => ?_⟩
  · exact ⟨by simp [decodeSketchBytes, SKETCH_FILE_SIZE_V1, SKETCH_FILE_SIZE_V2, h], rfl, rfl⟩
  · rw [List.getD_eq_getElem _ _ (by omega)] at hv
    simp [decodeSketchBytes, SKETCH_FILE_SIZE_V2, h, hv]
  · rw [List.getD_eq_getElem _ _ (by omega)] at hv
    simp [decodeSketchBytes, SKETCH_FILE_SIZE_V1, SKETCH_FILE_SIZE_V2, h, hv]
  · simp [decodeSketchBytes, SKETCH_FILE_SIZE_V1, SKETCH_FILE_SIZE_V2, h, h']

/-- Exercises every branch of `C2_decode_classification` on concrete
byte streams of lengths 290, 291 (version bytes 2 and 3) and 289. -/
theorem C2_decode_classification_witness :
    decodeSketchBytes (List.replicate 290 0) = some (decodeSketchBody (List.replicate 290 0)) ∧
    decodeSketchBytes (2 :: List.replicate 290 7) = some (decodeSketchBody (List.replicate 290 7)) ∧
    decodeSketchBytes (3 :: List.replicate 290 0) = none ∧
    decodeSketchBytes (List.replicate 289 0) = none := by
  refine ⟨(C2_decode_classification.1 (List.replicate 290 0)
      (by rw [List.length_replicate])).1, ?_, ?_, ?_⟩
  · exact C2_decode_classification.2.1 (2 :: List.replicate 290 7)
      (by rw [List.length_cons, List.length_replicate]) rfl
  · exact C2_decode_classification.2.2.1 (3 :: List.replicate 290 0)
      (by rw [List.length_cons, List.length_replicate])
      (by rw [show ((3 :: List.replicate 290 0).getD 0 0) = 3 from rfl]; decide)
  · exact C2_decode_classification.2.2.2 (List.replicate 289 0)
      (by rw [List.length_replicate]; decide) (by rw [List.length_replicate]; decide)

/-! ## C3: collapseIndex -/

/-- C3: collapseIndex is the identity when the index is 0 or within
the palette, and `((index - 1) mod paletteSize) + 1` otherwise, with
the spec's concrete examples. -/
theorem C3_collapseIndex_spec :
    (∀ index paletteSize : Nat, index ≤ 16 →
        (paletteSize = 4 ∨ paletteSize = 8 ∨ paletteSize = 16) →
        ((index = 0 ∨ index ≤ paletteSize) → collapseIndex index paletteSize = index) ∧
        (index ≠ 0 → paletteSize < index →
          collapseIndex index paletteSize = (index - 1) % paletteSize + 1)) ∧
    collapseIndex 5 4 = 1 ∧ collapseIndex 8 4 = 4 ∧ collapseIndex 16 4 = 4 ∧
    collapseIndex 9 8 = 1 ∧ collapseIndex 16 8 = 8 ∧
    (∀ p : Nat, collapseIndex 0 p = 0) ∧ collapseIndex 3 8 = 3 := by
  refine ⟨fun index p hi hp => ⟨?_, ?_⟩, by decide, by decide, by decide, by decide,
    by decide, fun p => by simp [collapseIndex], by decide⟩
  · rintro (h0 | hle)
    · simp [collapseIndex, h0]
    · by_cases hi0 : index = 0 <;> simp [collapseIndex, hi0, hle]
  · intro h0 hlt
    unfold collapseIndex
    rw [if_neg h0, if_neg (by omega : ¬ index ≤ p)]

/-- Exercises `C3_collapseIndex_spec` at index 16, palette size 8. -/
theorem C3_collapseIndex_spec_witness :
    collapseIndex 16 8 = (16 - 1) % 8 + 1 :=
  (C3_collapseIndex_spec.1 16 8 (by decide) (by right; left; rfl)).2 (by decide) (by decide)

/-! ## Undo helper lemmas -/

theorem restoreUndo_of_not_available (st : EditorState) (h : st.undoAvailable = false) :
    restoreUndo st = { st with statusMsg := .noUndo } := by
  unfold restoreUndo
  rw [if_pos h]

theorem restoreUndo_after_saveUndo (st : EditorState) (m : Fin 16 → Fin 16 → Nat) :
    restoreUndo { saveUndo st with canvas := m } =
    { st with
      canvas := (saveUndo st).undoCanvas
      undoCanvas := (saveUndo st).undoCanvas
      undoPaletteSize := 0
      undoGridSize := 0
      undoAvailable := false
      canvasNeedsUpdate := true
      statusMsg := .undoDone } := by
  unfold restoreUndo saveUndo
  simp

/-! ## C4: undo snapshot round trip -/

/-- C4 (amended): `saveUndo()` snapshots only the active
`currentGridSize × currentGridSize` region (main.cpp lines 1456-1460),
while `restoreUndo()` copies the full 16×16 undo buffer back.  After
`saveUndo(); mutate; restoreUndo()` the cells inside the active region
are restored to their state at the `saveUndo()` call, the cells outside
it receive the undo buffer's prior (stale) content — so the full-grid
round trip holds exactly in 16×16 mode — and only the most recent
`saveUndo()` determines the restored content. -/
theorem C4_undo_snapshot_roundtrip (st : EditorState) (m : Fin 16 → Fin 16 → Nat) :
    (∀ y x : Fin 16, y.val < st.currentGridSize → x.val < st.currentGridSize →
      (restoreUndo { saveUndo st with canvas := m }).canvas y x = st.canvas y x) ∧
    (∀ y x : Fin 16, ¬(y.val < st.currentGridSize ∧ x.val < st.currentGridSize) →
      (restoreUndo { saveUndo st with canvas := m }).canvas y x = st.undoCanvas y x) ∧
    (st.currentGridSize = 16 →
      (restoreUndo { saveUndo st with canvas := m }).canvas = st.canvas) ∧
    (restoreUndo { saveUndo st with canvas := m }).currentGridSize = st.currentGridSize ∧
    (restoreUndo { saveUndo st with canvas := m }).activeSketch = st.activeSketch ∧
    (∀ m₁ : Fin 16 → Fin 16 → Nat, ∀ y x : Fin 16,
      y.val < st.currentGridSize → x.val < st.currentGridSize →
      (restoreUndo { saveUndo { saveUndo st with canvas := m₁ } with canvas := m }).canvas y x
        = m₁ y x) := by
  rw [restoreUndo_after_saveUndo]
  refine ⟨?_, ?_, ?_, rfl, rfl, ?_⟩
  · intro y x hy hx
    simp [saveUndo, hy, hx]
  · intro y x h
    simp only [saveUndo]
    exact if_neg h
  · intro h16
    funext y x
    simp [saveUndo, h16, y.isLt, x.isLt]
  · intro m₁ y x hy hx
    rw [restoreUndo_after_saveUndo]
    simp [saveUndo, hy, hx]

/-- Exercises `C4_undo_snapshot_roundtrip` at a concrete 16×16-mode
state: the full-grid round trip and the last-save-wins property. -/
theorem C4_undo_snapshot_roundtrip_witness :
    (restoreUndo { saveUndo baseEditorState with canvas := fun _ _ => 1 }).canvas
      = baseEditorState.canvas ∧
    (restoreUndo { saveUndo { saveUndo baseEditorState with canvas := fun _ _ => 2 } with
        canvas := fun _ _ => 1 }).canvas ⟨0, by norm_num⟩ ⟨0, by norm_num⟩ = 2 :=
  ⟨(C4_undo_snapshot_roundtrip baseEditorState (fun _ _ => 1)).2.2.1 rfl,
   (C4_undo_snapshot_roundtrip baseEditorState (fun _ _ => 1)).2.2.2.2.2
     (fun _ _ => 2) ⟨0, by norm_num⟩ ⟨0, by norm_num⟩ (by decide) (by decide)⟩

/-- C4 as stated is false in 8×8 mode: `saveUndo()` copies only the
8×8 region, so `restoreUndo()` overwrites the out-of-mode cell (15,15)
with the undo buffer's stale content instead of the canvas state at
the `saveUndo()` call. -/
theorem C4_undo_snapshot_roundtrip_cex :
    (restoreUndo cexUndoMutated).canvas ⟨15, by norm_num⟩ ⟨15, by norm_num⟩ ≠
      cexUndoState.canvas ⟨15, by norm_num⟩ ⟨15, by norm_num⟩ := by decide

/-! ## C9: restoreUndo is one-shot -/

/-- C9: after a `restoreUndo()` that restored a snapshot, the next
`restoreUndo()` only sets the benign "nothing to undo" status and
changes nothing else: canvas, active sketch and grid size keep their
values. -/
theorem C9_restoreUndo_one_shot (st : EditorState) (h : st.undoAvailable = true) :
    (restoreUndo st).undoAvailable = false ∧
    restoreUndo (restoreUndo st) = { restoreUndo st with statusMsg := .noUndo } ∧
    (restoreUndo (restoreUndo st)).statusMsg = .noUndo ∧
    (restoreUndo (restoreUndo st)).canvas = (restoreUndo st).canvas ∧
    (restoreUndo (restoreUndo st)).activeSketch = (restoreUndo st).activeSketch ∧
    (restoreUndo (restoreUndo st)).currentGridSize = (restoreUndo st).currentGridSize := by
  have hav : (restoreUndo st).undoAvailable = false := by
    unfold restoreUndo
    rw [if_neg (by simp [h])]
  have h2 := restoreUndo_of_not_available _ hav
  exact ⟨hav, h2, by rw [h2], by rw [h2], by rw [h2], by rw [h2]⟩

/-- Exercises `C9_restoreUndo_one_shot` on a concrete armed state. -/
theorem C9_restoreUndo_one_shot_witness :
    (restoreUndo (restoreUndo { baseEditorState with undoAvailable := true })).statusMsg
      = .noUndo :=
  (C9_restoreUndo_one_shot { baseEditorState with undoAvailable := true } rfl).2.2.1

/-! ## Export pipeline helper lemmas -/

theorem probeExportNum_from (ex : Nat → Bool) (k : Nat) (hk : k ≤ 9999)
    (hfree : ex k = false) (hused : ∀ j, j < k → ex j = true) :
    ∀ fuel n, n ≤ k → k - n < fuel → probeExportNum ex fuel n = (k, k + 1) := by
  intro fuel
  induction fuel with
  | zero => intro n hn hlt; omega
  | succ f ih =>
    intro n hn hlt
    unfold probeExportNum
    by_cases hnk : n = k
    · subst hnk
      simp [hfree]
    · have hlt2 : n < k := lt_of_le_of_ne hn hnk
      rw [hused n hlt2, if_pos ⟨rfl, by omega⟩]
      exact ih (n + 1) (by omega) (by omega)

theorem probeExportNum_spec (ex : Nat → Bool) (k : Nat) (hk : k ≤ 9999)
    (hfree : ex k = false) (hused : ∀ j, j < k → ex j = true) :
    probeExportNum ex 10000 0 = (k, k + 1) :=
  probeExportNum_from ex k hk hfree hused 10000 0 (Nat.zero_le k) (by omega)

/-- `sdInitUpdate` never touches the active sketch. -/
theorem sdInitUpdate_activeSketch (b : Bool) (st : EditorState) :
    (sdInitUpdate b st).activeSketch = st.activeSketch := by
  unfold sdInitUpdate
  split <;> rfl

/-- The export pipeline after all allocation/encode stages succeed:
only the probe and the file write remain. -/
theorem export_past_encode (env : ExportEnv) (st : EditorState) (scale : Bool)
    (h1 : env.mallocPngBuffer = true) (h2 : env.mallocLineRGB = true)
    (h3 : env.newPngEnc = true) (h4 : env.openRc = PNG_SUCCESS)
    (h5 : env.mallocLineRGBA = true) (h6 : env.encodeBeginRc = PNG_SUCCESS)
    (h7 : ∀ y, env.addLineRc y = PNG_SUCCESS) (h8 : 0 < env.closeSize) :
    exportAfterInit env st scale =
      (if 10000 ≤ (probeExportNum env.exportExists 10000 0).2 then
         { ok := false, st := { st with statusMsg := .tooManyExports }, writtenSuffix := none }
       else if env.openFileOk = false then
         { ok := false, st := { st with statusMsg := .fileOpenFail }, writtenSuffix := none }
       else if env.writtenBytes ≠ env.closeSize.toNat then
         { ok := false, st := { st with statusMsg := .writeIncomplete },
           writtenSuffix := some (probeExportNum env.exportExists 10000 0).1 }
       else
         { ok := true, st := { st with statusMsg := .exported },
           writtenSuffix := some (probeExportNum env.exportExists 10000 0).1 }) := by
  unfold exportAfterInit
  rw [if_neg (by rw [h1]; simp), if_neg (by rw [h2]; simp), if_neg (by rw [h3]; simp),
    if_neg (by rw [h4]; simp), if_neg (by rw [h5]; simp), if_neg (by rw [h6]; simp)]
  rw [List.find?_eq_none.mpr (by intro y hy; simp [h7 y])]
  rw [if_neg (by omega)]

/-- Every outcome of `exportAfterInit` carries the input state with at
most the status message changed, so the active sketch is untouched. -/
theorem exportAfterInit_activeSketch (env : ExportEnv) (st : EditorState) (scale : Bool) :
    (exportAfterInit env st scale).st.activeSketch = st.activeSketch := by
  unfold exportAfterInit
  by_cases h1 : env.mallocPngBuffer = false
  · rw [if_pos h1]
  rw [if_neg h1]
  by_cases h2 : env.mallocLineRGB = false
  · rw [if_pos h2]
  rw [if_neg h2]
  by_cases h3 : env.newPngEnc = false
  · rw [if_pos h3]
  rw [if_neg h3]
  by_cases h4 : env.openRc ≠ PNG_SUCCESS
  · rw [if_pos h4]
  rw [if_neg h4]
  by_cases h5 : env.mallocLineRGBA = false
  · rw [if_pos h5]
  rw [if_neg h5]
  by_cases h6 : env.encodeBeginRc ≠ PNG_SUCCESS
  · rw [if_pos h6]
  rw [if_neg h6]
  cases hf : (List.range (if scale then 128 else st.currentGridSize)).find?
      (fun y => decide (env.addLineRc y ≠ PNG_SUCCESS)) with
  | some y => rfl
  | none =>
    by_cases h8 : env.closeSize ≤ 0
    · rw [if_pos h8]
    rw [if_neg h8]
    by_cases h9 : 10000 ≤ (probeExportNum env.exportExists 10000 0).2
    · rw [if_pos h9]
    rw [if_neg h9]
    by_cases h10 : env.openFileOk = false
    · rw [if_pos h10]
    rw [if_neg h10]
    by_cases h11 : env.writtenBytes ≠ env.closeSize.toNat
    · rw [if_pos h11]
    rw [if_neg h11]

/-! ## C6: failure is atomic for the active sketch -/

/-- C6: `exportCanvasToPNG` never mutates the active Sketch — in
particular every failure leaves it untouched — and every failing
`loadSketchFromSD` path returns before writing any field of the
active Sketch, which is only replaced on full success. -/
theorem C6_failure_atomicity :
    (∀ (env : ExportEnv) (st : EditorState) (scale : Bool),
      (exportCanvasToPNG env st scale).ok = false →
      (exportCanvasToPNG env st scale).st.activeSketch = st.activeSketch) ∧
    (∀ (env : LoadEnv) (st : EditorState) (fn : String),
      (loadSketchFromSD env st fn).1 = false →
      (loadSketchFromSD env st fn).2.activeSketch = st.activeSketch) := by
  constructor
  · intro env st scale _
    unfold exportCanvasToPNG
    by_cases hA : st.sdCardAvailable = false ∧ env.initOk = false
    · rw [if_pos hA]
    · rw [if_neg hA, exportAfterInit_activeSketch, sdInitUpdate_activeSketch]
  · intro env st fn h
    unfold loadSketchFromSD at h ⊢
    by_cases hA : st.sdCardAvailable = false ∧ env.initOk = false
    · rw [if_pos hA]
    rw [if_neg hA] at h ⊢
    generalize hst1 : sdInitUpdate env.initOk st = st1 at h ⊢
    have hsk : st1.activeSketch = st.activeSketch := by
      rw [← hst1]; exact sdInitUpdate_activeSketch env.initOk st
    unfold loadAfterInit at h ⊢
    by_cases hB : env.cardPresent = false
    · rw [if_pos hB]; exact hsk
    rw [if_neg hB] at h ⊢
    by_cases hC : env.fileExists = false
    · rw [if_pos hC]; exact hsk
    rw [if_neg hC] at h ⊢
    by_cases hD : env.openOk = false
    · rw [if_pos hD]; exact hsk
    rw [if_neg hD] at h ⊢
    cases hdec : decodeSketchBytes env.bytes with
    | none => exact hsk
    | some sk =>
      rw [hdec] at h
      simp at h

/-- Exercises `C6_failure_atomicity` on a concrete failing export
(PNG buffer allocation failure) and a concrete failing load (file
not found). -/
theorem C6_failure_atomicity_witness :
    (exportCanvasToPNG failExportEnv baseEditorState false).st.activeSketch
      = baseEditorState.activeSketch ∧
    (loadSketchFromSD failLoadEnv baseEditorState "sketch_1.dat").2.activeSketch
      = baseEditorState.activeSketch :=
  ⟨C6_failure_atomicity.1 failExportEnv baseEditorState false rfl,
   C6_failure_atomicity.2 failLoadEnv baseEditorState "sketch_1.dat" rfl⟩

/-! ## C8: export filename probing -/

/-- C8 (amended): when the first unused suffix k of the
`dx_%04d.png` pattern satisfies k ≤ 9998 and the rest of the pipeline
succeeds, the export writes to that first unused name and the
"too many exports" failure is not reported; but when the first unused
suffix is 9999 (or no suffix is unused), the loop's exit increment
makes `exportNum` reach 10000 and the "too many exports" failure is
reported without writing any file — the last probe's free name is
discarded. -/
theorem C8_export_filename_probe (env : ExportEnv) (st : EditorState) (scale : Bool)
    (k : Nat) (hk : k ≤ 9999) (hfree : env.exportExists k = false)
    (hused : ∀ j, j < k → env.exportExists j = true)
    (hsd : ¬(st.sdCardAvailable = false ∧ env.initOk = false))
    (h1 : env.mallocPngBuffer = true) (h2 : env.mallocLineRGB = true)
    (h3 : env.newPngEnc = true) (h4 : env.openRc = PNG_SUCCESS)
    (h5 : env.mallocLineRGBA = true) (h6 : env.encodeBeginRc = PNG_SUCCESS)
    (h7 : ∀ y, env.addLineRc y = PNG_SUCCESS) (h8 : 0 < env.closeSize)
    (h9 : env.openFileOk = true) (h10 : env.writtenBytes = env.closeSize.toNat) :
    (k ≤ 9998 →
      (exportCanvasToPNG env st scale).ok = true ∧
      (exportCanvasToPNG env st scale).writtenSuffix = some k ∧
      env.exportExists k = false ∧
      (exportCanvasToPNG env st scale).st.statusMsg ≠ .tooManyExports) ∧
    (k = 9999 →
      (exportCanvasToPNG env st scale).ok = false ∧
      (exportCanvasToPNG env st scale).writtenSuffix = none ∧
      (exportCanvasToPNG env st scale).st.statusMsg = .tooManyExports) := by
  have hprobe := probeExportNum_spec env.exportExists k hk hfree hused
  have hexp := export_past_encode env (sdInitUpdate env.initOk st) scale h1 h2 h3 h4 h5 h6 h7 h8
  have hunfold : exportCanvasToPNG env st scale
      = exportAfterInit env (sdInitUpdate env.initOk st) scale := by
    unfold exportCanvasToPNG
    rw [if_neg hsd]
  rw [hunfold, hexp]
  simp only [hprobe]
  constructor
  · intro hk98
    rw [if_neg (by omega), if_neg (by rw [h9]; simp), if_neg (by simp [h10])]
    exact ⟨rfl, rfl, hfree, by simp⟩
  · intro hk99
    subst hk99
    rw [if_pos (by omega)]
    exact ⟨rfl, rfl, rfl⟩

/-- Exercises the success half of `C8_export_filename_probe`:
suffixes 0..2 in use, the export writes to suffix 3. -/
theorem C8_export_filename_probe_witness :
    (exportCanvasToPNG okExportEnv baseEditorState false).ok = true ∧
    (exportCanvasToPNG okExportEnv baseEditorState false).writtenSuffix = some 3 ∧
    okExportEnv.exportExists 3 = false ∧
    (exportCanvasToPNG okExportEnv baseEditorState false).st.statusMsg ≠ .tooManyExports :=
  (C8_export_filename_probe okExportEnv baseEditorState false 3 (by norm_num)
    (by decide) (fun j hj => by simp [okExportEnv]; omega)
    (by simp [baseEditorState, okExportEnv]) rfl rfl rfl rfl rfl rfl (fun _ => rfl)
    (by norm_num [okExportEnv]) rfl rfl).1 (by norm_num)

/-- C8 as stated is false: with suffixes 0..9998 in use and dx_9999
free, the code finds the free name but then fails the
`exportNum >= 10000` check and reports "too many exports" anyway. -/
theorem C8_export_filename_probe_cex :
    cexExportEnv.exportExists 9999 = false ∧
    (exportCanvasToPNG cexExportEnv baseEditorState false).ok = false ∧
    (exportCanvasToPNG cexExportEnv baseEditorState false).writtenSuffix = none ∧
    (exportCanvasToPNG cexExportEnv baseEditorState false).st.statusMsg
      = .tooManyExports := by
  have hprobe := probeExportNum_spec cexExportEnv.exportExists 9999 (by omega)
    (by simp [cexExportEnv, okExportEnv]) (fun j hj => by simp [cexExportEnv, okExportEnv]; omega)
  have hexp := export_past_encode cexExportEnv
    (sdInitUpdate cexExportEnv.initOk baseEditorState) false rfl rfl rfl rfl rfl rfl
    (fun _ => rfl) (by norm_num [cexExportEnv, okExportEnv])
  have hunfold : exportCanvasToPNG cexExportEnv baseEditorState false
      = exportAfterInit cexExportEnv (sdInitUpdate cexExportEnv.initOk baseEditorState) false := by
    unfold exportCanvasToPNG
    rw [if_neg (by simp [baseEditorState, cexExportEnv, okExportEnv])]
  refine ⟨by simp [cexExportEnv, okExportEnv], ?_, ?_, ?_⟩ <;>
    · rw [hunfold, hexp]
      simp only [hprobe]
      rfl

/-! ## C7: palette text-file parsing -/

theorem processHexLine_length_le (acc : List Nat) (line : List Char)
    (h : acc.length ≤ 16) : (processHexLine acc line).length ≤ 16 := by
  unfold processHexLine processHexLineBody processHexColor
  repeat' split
  all_goals first
    | exact h
    | (simp; omega)

theorem foldl_processHexLine_length_le (lines : List (List Char)) :
    ∀ acc : List Nat, acc.length ≤ 16 → (lines.foldl processHexLine acc).length ≤ 16 := by
  induction lines with
  | nil => intro acc h; exact h
  | cons l t ih =>
    intro acc h
    exact ih _ (processHexLine_length_le acc l h)

theorem cyclicFill_length (parsed : List Nat) (h : parsed.length ≤ 16) :
    (cyclicFill parsed).length = 16 := by
  simp [cyclicFill]
  omega

theorem cyclicFill_alias (parsed : List Nat) (hle : parsed.length ≤ 16)
    (hpos : 0 < parsed.length) (i : Nat) (h16 : i < 16) (hn : parsed.length ≤ i) :
    (cyclicFill parsed).getD i 0 = (cyclicFill parsed).getD (i % parsed.length) 0 := by
  unfold cyclicFill
  rw [List.getD_append_right _ _ _ _ (by exact hn),
    List.getD_append _ _ _ _ (by exact lt_of_lt_of_le (Nat.mod_lt i hpos) (le_refl _))]
  rw [List.getD_eq_getElem _ _ (by simp; omega)]
  simp only [List.getElem_map, List.getElem_range]
  have : parsed.length + (i - parsed.length) = i := by omega
  rw [this]

/-- C7 (amended): `loadPaletteFromHex` accepts a file iff the number
of lines that survive the filters (non-empty, not `//`-comment,
exactly 6 characters after an optional `#` is stripped — their
content is parsed leniently by `strtol` and never checked to be hex)
is exactly 4, 8 or 16, counting at most the first 16 such lines; on
acceptance the 16 slots are the parsed colors followed by cyclic
repeats, so every slot i ≥ colorCount aliases slot i % colorCount. -/
theorem C7_palette_text_parsing (lines : List (List Char)) :
    (∀ cs n, loadPaletteFromHex true lines = some (cs, n) →
      (n = 4 ∨ n = 8 ∨ n = 16) ∧
      n = (lines.foldl processHexLine []).length ∧
      cs.length = 16 ∧
      (∀ i, i < 16 → n ≤ i → cs.getD i 0 = cs.getD (i % n) 0)) ∧
    ((lines.foldl processHexLine []).length = 4 ∨
      (lines.foldl processHexLine []).length = 8 ∨
      (lines.foldl processHexLine []).length = 16 →
      loadPaletteFromHex true lines
        = some (cyclicFill (lines.foldl processHexLine []),
                (lines.foldl processHexLine []).length)) := by
  have hle : (lines.foldl processHexLine []).length ≤ 16 :=
    foldl_processHexLine_length_le lines [] (by simp)
  constructor
  · intro cs n h
    unfold loadPaletteFromHex at h
    rw [if_neg (by simp)] at h
    by_cases hcnt : (lines.foldl processHexLine []).length ≠ 4 ∧
        (lines.foldl processHexLine []).length ≠ 8 ∧
        (lines.foldl processHexLine []).length ≠ 16
    · rw [if_pos hcnt] at h
      exact absurd h (by simp)
    · rw [if_neg hcnt] at h
      have hsome := Option.some.inj h
      have hcs : cs = cyclicFill (lines.foldl processHexLine []) :=
        (congrArg Prod.fst hsome).symm
      have hn : n = (lines.foldl processHexLine []).length :=
        (congrArg Prod.snd hsome).symm
      push_neg at hcnt
      have hor : (lines.foldl processHexLine []).length = 4 ∨
          (lines.foldl processHexLine []).length = 8 ∨
          (lines.foldl processHexLine []).length = 16 := by
        rcases Decidable.em ((lines.foldl processHexLine []).length = 4) with h4 | h4
        · exact Or.inl h4
        rcases Decidable.em ((lines.foldl processHexLine []).length = 8) with h8 | h8
        · exact Or.inr (Or.inl h8)
        · exact Or.inr (Or.inr (hcnt h4 h8))
      refine ⟨by omega, hn, ?_, ?_⟩
      · rw [hcs]
        exact cyclicFill_length _ hle
      · intro i h16 hni
        rw [hcs, hn]
        exact cyclicFill_alias _ hle (by omega) i h16 (by omega)
  · intro hcnt
    unfold loadPaletteFromHex
    rw [if_neg (by simp), if_neg (by omega)]

/-- Exercises `C7_palette_text_parsing` on a concrete 4-line file:
it is accepted with colorCount 4 and slot 5 aliases slot 1. -/
theorem C7_palette_text_parsing_witness :
    loadPaletteFromHex true c7Lines
      = some (cyclicFill (c7Lines.foldl processHexLine []),
              (c7Lines.foldl processHexLine []).length) ∧
    (cyclicFill (c7Lines.foldl processHexLine [])).getD 4 0
      = (cyclicFill (c7Lines.foldl processHexLine [])).getD (4 % 4) 0 :=
  ⟨(C7_palette_text_parsing c7Lines).2 (Or.inl (by decide)),
   ((C7_palette_text_parsing c7Lines).1 _ _
      ((C7_palette_text_parsing c7Lines).2 (Or.inl (by decide)))).2.2.2 4
      (by decide) (by decide)⟩

/-- C7's "only if" direction is false as stated: a file of four
6-character lines that are not hex colors at all (`GGGGGG`) is
accepted — wrong-length lines are silently skipped and 6-character
lines are handed to `strtol` without validating the digits. -/
theorem C7_palette_text_parsing_cex :
    hexVal 'G' = none ∧ loadPaletteFromHex true c7BadLines ≠ none := by
  constructor
  · rfl
  · decide

/-! ## C10: PNG export bypasses collapseIndex -/

/-- C10: the export loop (main.cpp line 1082) reads
`paletteColors[colorIndex - 1]` directly without `collapseIndex`: on a
4-color sketch whose raw slot 5 differs from the collapsed slot, the
RGBA the export writes for pixel index 5 differs from the
bit-replicated expansion of the color `getActiveSketchPixelColor`
resolves for the same index. -/
theorem C10_export_bypasses_collapse :
    c10Sketch.paletteSize = 4 ∧
    c10Sketch.paletteColors (arrIdx (5 - 1)) ≠
      c10Sketch.paletteColors (arrIdx (collapseIndex 5 c10Sketch.paletteSize - 1)) ∧
    exportPixelRGBA c10Sketch 5 ≠
      ((rgb565ToRGB888 (getActiveSketchPixelColor c10Sketch 5)).1,
       (rgb565ToRGB888 (getActiveSketchPixelColor c10Sketch 5)).2.1,
       (rgb565ToRGB888 (getActiveSketchPixelColor c10Sketch 5)).2.2,
       255) := by
  refine ⟨rfl, by decide, by decide⟩

/-! ## C5: flood fill — basic cell/bitmap lemmas -/

theorem arrIdx_val (n : Nat) (h : n < 16) : (arrIdx n).val = n := Nat.mod_eq_of_lt h

theorem arrIdx_val_inj {a b : Nat} (ha : a < 16) (hb : b < 16)
    (h : arrIdx a = arrIdx b) : a = b := by
  have := congrArg Fin.val h
  rwa [arrIdx_val _ ha, arrIdx_val _ hb] at this

theorem setVisited_self (v : Fin 16 → Fin 16 → Bool) (y x : Fin 16) :
    setVisited v y x y x = true := by simp [setVisited]

theorem setVisited_mono (v : Fin 16 → Fin 16 → Bool) (y x y' x' : Fin 16)
    (h : v y' x' = true) : setVisited v y x y' x' = true := by
  unfold setVisited
  split
  · rfl
  · exact h

theorem setVisited_eq_true_iff (v : Fin 16 → Fin 16 → Bool) (y x y' x' : Fin 16) :
    setVisited v y x y' x' = true ↔ ((y' = y ∧ x' = x) ∨ v y' x' = true) := by
  unfold setVisited
  split
  · simp_all
  · simp_all

theorem setCell_self (c : Fin 16 → Fin 16 → Nat) (y x : Fin 16) (v : Nat) :
    setCell c y x v y x = v := if_pos ⟨rfl, rfl⟩

theorem setCell_ne (c : Fin 16 → Fin 16 → Nat) (y x : Fin 16) (v : Nat)
    (y' x' : Fin 16) (h : ¬(y' = y ∧ x' = x)) : setCell c y x v y' x' = c y' x' :=
  if_neg h

theorem visitedCard_le (s : FFState) : visitedCard s ≤ 256 := by
  calc visitedCard s ≤ (Finset.univ : Finset (Fin 16 × Fin 16)).card :=
        Finset.card_filter_le _ _
    _ = 256 := by simp

theorem visitedCard_congr (s s' : FFState) (h : s.visited = s'.visited) :
    visitedCard s = visitedCard s' := by
  unfold visitedCard
  rw [h]

theorem visitedCard_set (s : FFState) (y x : Fin 16) (hv : s.visited y x = false)
    (s' : FFState) (h : s'.visited = setVisited s.visited y x) :
    visitedCard s' = visitedCard s + 1 := by
  unfold visitedCard
  rw [h]
  have hins : (Finset.univ.filter
      (fun c : Fin 16 × Fin 16 => setVisited s.visited y x c.1 c.2 = true))
      = insert (y, x) (Finset.univ.filter
        (fun c : Fin 16 × Fin 16 => s.visited c.1 c.2 = true)) := by
    ext c
    simp only [Finset.mem_filter, Finset.mem_insert, Finset.mem_univ, true_and,
      setVisited_eq_true_iff]
    constructor
    · rintro (⟨h1, h2⟩ | h1)
      · left
        exact Prod.ext h1 h2
      · right
        exact h1
    · rintro (h1 | h1)
      · left
        exact ⟨congrArg Prod.fst h1, congrArg Prod.snd h1⟩
      · right
        exact h1
  rw [hins, Finset.card_insert_of_not_mem (by simp [hv])]

/-! ## C5: flood fill — condPush lemmas -/

theorem condPush_canvas (cond : Prop) [Decidable cond] (q : Nat × Nat) (s : FFState) :
    (condPush cond q s).canvas = s.canvas := by
  unfold condPush ffPush
  split <;> rfl

theorem condPush_touched (cond : Prop) [Decidable cond] (q : Nat × Nat) (s : FFState) :
    (condPush cond q s).touched = s.touched := by
  unfold condPush ffPush
  split <;> rfl

theorem condPush_visited_mono (cond : Prop) [Decidable cond] (q : Nat × Nat)
    (s : FFState) (y x : Fin 16) (h : s.visited y x = true) :
    (condPush cond q s).visited y x = true := by
  unfold condPush ffPush
  split
  · exact setVisited_mono _ _ _ _ _ h
  · exact h

theorem condPush_marks (cond : Prop) [Decidable cond] (q : Nat × Nat) (s : FFState)
    (hc : cond) : (condPush cond q s).visited (arrIdx q.2) (arrIdx q.1) = true := by
  unfold condPush ffPush
  by_cases hv : s.visited (arrIdx q.2) (arrIdx q.1) = false
  · rw [if_pos ⟨hc, hv⟩]
    exact setVisited_self _ _ _
  · split
    · exact setVisited_self _ _ _
    · simpa using hv

/-- A `condPush` preserves the neighbor-push chain invariant, when the
guard implies the pushed cell is in bounds. -/
theorem condPush_chain (g orig fill : Nat) (hg16 : g ≤ 16)
    (s0 : FFState)
    (hvals : ∀ y x : Fin 16, y.val < g → x.val < g →
      s0.canvas y x = orig ∨ s0.canvas y x = fill)
    (cond : Prop) [Decidable cond] (q : Nat × Nat)
    (hq : cond → q.1 < g ∧ q.2 < g)
    (s : FFState) (h : PushChainInv g orig fill s0 s) :
    PushChainInv g orig fill s0 (condPush cond q s) := by
  unfold condPush
  by_cases hc : cond ∧ s.visited (arrIdx q.2) (arrIdx q.1) = false
  case neg => rw [if_neg hc]; exact h
  case pos =>
    rw [if_pos hc]
    obtain ⟨hcond, hunvis⟩ := hc
    obtain ⟨hqx, hqy⟩ := hq hcond
    have hq16x : q.1 < 16 := lt_of_lt_of_le hqx hg16
    have hq16y : q.2 < 16 := lt_of_lt_of_le hqy hg16
    have hxval : (arrIdx q.1).val = q.1 := arrIdx_val _ hq16x
    have hyval : (arrIdx q.2).val = q.2 := arrIdx_val _ hq16y
    have hq_not_stack : q ∉ s.stack := by
      intro hmem
      have := h.stack_visited q hmem
      rw [hunvis] at this
      exact Bool.false_ne_true this
    have hq_canvas : s.canvas (arrIdx q.2) (arrIdx q.1) = orig := by
      have hiff := h.visited_iff (arrIdx q.2) (arrIdx q.1)
      rw [hunvis] at hiff
      have hnot := fun hr => Bool.false_ne_true (hiff.mpr hr)
      have hnotfill : s.canvas (arrIdx q.2) (arrIdx q.1) ≠ fill := by
        intro hf
        exact hnot (Or.inr ⟨by rwa [hyval], by rwa [hxval], hf⟩)
      have := hvals (arrIdx q.2) (arrIdx q.1) (by rwa [hyval]) (by rwa [hxval])
      rw [← h.canvas_eq] at this
      rcases this with h1 | h1
      · exact h1
      · exact absurd h1 hnotfill
    refine ⟨?_, ?_, ?_, ?_, ?_, ?_, ?_, ?_, ?_, ?_⟩
    · exact h.canvas_eq
    · exact h.touched_eq
    · intro y x h0
      exact setVisited_mono _ _ _ _ _ (h.visited_mono y x h0)
    · intro r hr
      rcases List.mem_cons.mp hr with hr | hr
      · subst hr
        exact ⟨hqx, hqy⟩
      · exact h.stack_bounds r hr
    · intro r hr
      rcases List.mem_cons.mp hr with hr | hr
      · subst hr
        exact setVisited_self _ _ _
      · exact setVisited_mono _ _ _ _ _ (h.stack_visited r hr)
    · exact List.nodup_cons.mpr ⟨hq_not_stack, h.stack_nodup⟩
    · intro r hr
      rcases List.mem_cons.mp hr with hr | hr
      · subst hr
        exact hq_canvas
      · exact h.stack_orig r hr
    · intro y x
      show setVisited s.visited (arrIdx q.2) (arrIdx q.1) y x = true ↔ _
      rw [setVisited_eq_true_iff]
      by_cases hcell : y = arrIdx q.2 ∧ x = arrIdx q.1
      · obtain ⟨hy, hx⟩ := hcell
        subst hy
        subst hx
        constructor
        · intro _
          left
          rw [hxval, hyval]
          exact List.mem_cons_self _ _
        · intro _
          left
          exact ⟨rfl, rfl⟩
      · constructor
        · rintro (h1 | h1)
          · exact absurd h1 hcell
          · rcases (h.visited_iff y x).mp h1 with h2 | h2
            · exact Or.inl (List.mem_cons_of_mem _ h2)
            · exact Or.inr h2
        · rintro (h1 | h1)
          · rcases List.mem_cons.mp h1 with h2 | h2
            · exfalso
              apply hcell
              have hx : x.val = q.1 := congrArg Prod.fst h2
              have hy : y.val = q.2 := congrArg Prod.snd h2
              exact ⟨Fin.ext (by rw [hy, hyval]), Fin.ext (by rw [hx, hxval])⟩
            · exact Or.inr ((h.visited_iff y x).mpr (Or.inl h2))
          · exact Or.inr ((h.visited_iff y x).mpr (Or.inr h1))
    · show s.pushCount + 1 = _
      rw [h.push_card]
      exact (visitedCard_set s _ _ hunvis _ rfl).symm
    · show s.stack.length + 1 + s0.pushCount = s0.stack.length + (s.pushCount + 1)
      have := h.count_stack
      omega

/-- The full neighbor-push sequence preserves the chain invariant. -/
theorem ffPushNeighbors_chain (g orig fill : Nat) (hg16 : g ≤ 16)
    (s0 : FFState)
    (hvals : ∀ y x : Fin 16, y.val < g → x.val < g →
      s0.canvas y x = orig ∨ s0.canvas y x = fill)
    (p : Nat × Nat) (hpx : p.1 < g) (hpy : p.2 < g)
    (h : PushChainInv g orig fill s0 s0) :
    PushChainInv g orig fill s0 (ffPushNeighbors g p s0) := by
  unfold ffPushNeighbors
  apply condPush_chain g orig fill hg16 s0 hvals (p.1 < g - 1) (p.1 + 1, p.2)
    (fun hc => ⟨by omega, hpy⟩)
  apply condPush_chain g orig fill hg16 s0 hvals (0 < p.1) (p.1 - 1, p.2)
    (fun hc => ⟨by omega, hpy⟩)
  apply condPush_chain g orig fill hg16 s0 hvals (p.2 < g - 1) (p.1, p.2 + 1)
    (fun hc => ⟨hpx, by omega⟩)
  apply condPush_chain g orig fill hg16 s0 hvals (0 < p.2) (p.1, p.2 - 1)
    (fun hc => ⟨hpx, by omega⟩)
  exact h

/-- After `ffPushNeighbors`, every in-bounds 4-neighbor of the popped
cell is visited. -/
theorem ffPushNeighbors_neighbor_visited (g : Nat) (p : Nat × Nat) (s : FFState)
    (q : Nat × Nat) (hqx : q.1 < g) (hqy : q.2 < g)
    (hn : isNeighbor q (p.1, p.2)) :
    (ffPushNeighbors g p s).visited (arrIdx q.2) (arrIdx q.1) = true := by
  unfold ffPushNeighbors
  rcases hn with ⟨hx, hy | hy⟩ | ⟨hy, hx | hx⟩
  · -- up neighbor: q = (p.1, p.2 - 1)
    have hq : q = (p.1, p.2 - 1) := Prod.ext hx (by omega)
    subst hq
    apply condPush_visited_mono
    apply condPush_visited_mono
    apply condPush_visited_mono
    exact condPush_marks _ _ _ (by omega)
  · -- down neighbor: q = (p.1, p.2 + 1)
    have hq : q = (p.1, p.2 + 1) := Prod.ext hx (by omega)
    subst hq
    apply condPush_visited_mono
    apply condPush_visited_mono
    exact condPush_marks _ _ _ (by omega)
  · -- left neighbor: q = (p.1 - 1, p.2)
    have hq : q = (p.1 - 1, p.2) := Prod.ext (by omega) hy
    subst hq
    apply condPush_visited_mono
    exact condPush_marks _ _ _ (by omega)
  · -- right neighbor: q = (p.1 + 1, p.2)
    have hq : q = (p.1 + 1, p.2) := Prod.ext (by omega) hy
    subst hq
    exact condPush_marks _ _ _ (by omega)

/-- One fill-and-push iteration of the loop body preserves the
invariant and strictly decreases the measure. -/
theorem ffStep (g orig fill : Nat) (hg16 : g ≤ 16)
    (s : FFState) (hInv : FFInv g orig fill s) (p : Nat × Nat) (rest : List (Nat × Nat))
    (hstack : s.stack = p :: rest) :
    FFInv g orig fill (ffPushNeighbors g p
      { s with
        stack := rest
        touched := p :: s.touched
        canvas := setCell s.canvas (arrIdx p.2) (arrIdx p.1) fill }) ∧
    ffMeasure (ffPushNeighbors g p
      { s with
        stack := rest
        touched := p :: s.touched
        canvas := setCell s.canvas (arrIdx p.2) (arrIdx p.1) fill }) < ffMeasure s := by
  have hpmem : p ∈ s.stack := hstack ▸ List.mem_cons_self _ _
  obtain ⟨hpx, hpy⟩ := hInv.stack_bounds p hpmem
  have hp16x : p.1 < 16 := lt_of_lt_of_le hpx hg16
  have hp16y : p.2 < 16 := lt_of_lt_of_le hpy hg16
  have hpxval : (arrIdx p.1).val = p.1 := arrIdx_val _ hp16x
  have hpyval : (arrIdx p.2).val = p.2 := arrIdx_val _ hp16y
  have hporig : s.canvas (arrIdx p.2) (arrIdx p.1) = orig := hInv.stack_orig p hpmem
  have hnodup : (p :: rest).Nodup := hstack ▸ hInv.stack_nodup
  have hp_not_rest : p ∉ rest := (List.nodup_cons.mp hnodup).1
  have hrest_nodup : rest.Nodup := (List.nodup_cons.mp hnodup).2
  set sB : FFState :=
    { s with
      stack := rest
      touched := p :: s.touched
      canvas := setCell s.canvas (arrIdx p.2) (arrIdx p.1) fill } with hsB
  have hcell_ne : ∀ r : Nat × Nat, r.1 < g → r.2 < g → r ≠ p →
      ¬(arrIdx r.2 = arrIdx p.2 ∧ arrIdx r.1 = arrIdx p.1) := by
    intro r hrx hry hrp ⟨h2, h1⟩
    exact hrp (Prod.ext
      (arrIdx_val_inj (lt_of_lt_of_le hrx hg16) hp16x h1)
      (arrIdx_val_inj (lt_of_lt_of_le hry hg16) hp16y h2))
  have hfin_ne : ∀ y x : Fin 16, ¬(y = arrIdx p.2 ∧ x = arrIdx p.1) →
      (x.val, y.val) ≠ p := by
    intro y x hne2 heq
    exact hne2 ⟨Fin.ext (by rw [hpyval, ← congrArg Prod.snd heq]),
      Fin.ext (by rw [hpxval, ← congrArg Prod.fst heq])⟩
  have hvalsB : ∀ y x : Fin 16, y.val < g → x.val < g →
      sB.canvas y x = orig ∨ sB.canvas y x = fill := by
    intro y x hy hx
    by_cases hc : y = arrIdx p.2 ∧ x = arrIdx p.1
    · right
      rw [hsB]
      show setCell s.canvas (arrIdx p.2) (arrIdx p.1) fill y x = fill
      rw [hc.1, hc.2]
      exact setCell_self _ _ _ _
    · have : sB.canvas y x = s.canvas y x := setCell_ne _ _ _ _ _ _ hc
      rw [this]
      exact hInv.canvas_vals y x hy hx
  have hbase : PushChainInv g orig fill sB sB := by
    refine ⟨rfl, rfl, fun _ _ h => h, ?_, ?_, hrest_nodup, ?_, ?_, ?_, rfl⟩
    · intro r hr
      exact hInv.stack_bounds r (hstack ▸ List.mem_cons_of_mem _ hr)
    · intro r hr
      exact hInv.stack_visited r (hstack ▸ List.mem_cons_of_mem _ hr)
    · intro r hr
      obtain ⟨hrx, hry⟩ := hInv.stack_bounds r (hstack ▸ List.mem_cons_of_mem _ hr)
      have hrp : r ≠ p := fun h => hp_not_rest (h ▸ hr)
      have : sB.canvas (arrIdx r.2) (arrIdx r.1) = s.canvas (arrIdx r.2) (arrIdx r.1) :=
        setCell_ne _ _ _ _ _ _ (hcell_ne r hrx hry hrp)
      rw [this]
      exact hInv.stack_orig r (hstack ▸ List.mem_cons_of_mem _ hr)
    · intro y x
      show s.visited y x = true ↔ _
      by_cases hc : y = arrIdx p.2 ∧ x = arrIdx p.1
      · obtain ⟨hy, hx⟩ := hc
        subst hy
        subst hx
        constructor
        · intro _
          right
          refine ⟨by rwa [hpyval], by rwa [hpxval], ?_⟩
          show setCell s.canvas (arrIdx p.2) (arrIdx p.1) fill _ _ = fill
          exact setCell_self _ _ _ _
        · intro _
          exact hInv.stack_visited p hpmem
      · have hcanvas : sB.canvas y x = s.canvas y x := setCell_ne _ _ _ _ _ _ hc
        rw [hInv.visited_iff y x, hstack]
        show (x.val, y.val) ∈ p :: rest ∨ _ ↔ (x.val, y.val) ∈ rest ∨ _
        rw [hcanvas]
        constructor
        · rintro (h1 | h1)
          · rcases List.mem_cons.mp h1 with h2 | h2
            · exact absurd h2 (hfin_ne y x hc)
            · exact Or.inl h2
          · exact Or.inr h1
        · rintro (h1 | h1)
          · exact Or.inl (List.mem_cons_of_mem _ h1)
          · exact Or.inr h1
    · show s.pushCount = _
      rw [hInv.push_card]
      exact visitedCard_congr _ _ rfl
  have hchain := ffPushNeighbors_chain g orig fill hg16 sB hvalsB p hpx hpy hbase
  set s' := ffPushNeighbors g p sB with hs'
  constructor
  · refine ⟨hchain.stack_bounds, hchain.stack_visited, hchain.stack_nodup,
      hchain.stack_orig, hchain.visited_iff, ?_, ?_, hchain.push_card⟩
    · intro y x hy hx
      rw [hchain.canvas_eq]
      exact hvalsB y x hy hx
    · intro y x hy hx hfillc q hqx hqy hqn
      rw [hchain.canvas_eq] at hfillc
      by_cases hc : y = arrIdx p.2 ∧ x = arrIdx p.1
      · obtain ⟨hy2, hx2⟩ := hc
        subst hy2
        subst hx2
        rw [hs']
        apply ffPushNeighbors_neighbor_visited g p sB q hqx hqy
        rwa [hpxval, hpyval] at hqn
      · have : sB.canvas y x = s.canvas y x := setCell_ne _ _ _ _ _ _ hc
        rw [this] at hfillc
        have hvis := hInv.done_closed y x hy hx hfillc q hqx hqy hqn
        exact hchain.visited_mono _ _ hvis
  · have hvcB : visitedCard sB = visitedCard s := visitedCard_congr _ _ rfl
    have hmono : visitedCard sB ≤ visitedCard s' := by
      apply Finset.card_le_card
      intro c hc
      simp only [Finset.mem_filter, Finset.mem_univ, true_and] at hc ⊢
      exact hchain.visited_mono _ _ hc
    have hle := visitedCard_le s'
    have hcs := hchain.count_stack
    have hpc' := hchain.push_card
    have hpc := hInv.push_card
    unfold ffMeasure
    rw [hstack]
    show 2 * (256 - visitedCard s') + s'.stack.length <
      2 * (256 - visitedCard s) + (p :: rest).length
    have hlen : (p :: rest).length = rest.length + 1 := rfl
    have hsBpc : sB.pushCount = s.pushCount := rfl
    have hsBstack : sB.stack.length = rest.length := rfl
    rw [hsBpc, hsBstack] at hcs
    omega

theorem ffPushNeighbors_visited_mono (g : Nat) (p : Nat × Nat) (s : FFState)
    (y x : Fin 16) (h : s.visited y x = true) :
    (ffPushNeighbors g p s).visited y x = true := by
  unfold ffPushNeighbors
  exact condPush_visited_mono _ _ _ _ _ (condPush_visited_mono _ _ _ _ _
    (condPush_visited_mono _ _ _ _ _ (condPush_visited_mono _ _ _ _ _ h)))

theorem ffLoop_nil (g orig fill fuel : Nat) (s : FFState) (hstack : s.stack = []) :
    ffLoop g orig fill (fuel + 1) s = s := by
  obtain ⟨c, v, stk, pc, t⟩ := s
  simp only at hstack
  subst hstack
  rfl

theorem ffLoop_cons (g orig fill fuel : Nat) (s : FFState) (p : Nat × Nat)
    (rest : List (Nat × Nat)) (hstack : s.stack = p :: rest) :
    ffLoop g orig fill (fuel + 1) s =
      if p.1 < 0 ∨ g ≤ p.1 ∨ p.2 < 0 ∨ g ≤ p.2 then
        ffLoop g orig fill fuel { s with stack := rest }
      else if s.canvas (arrIdx p.2) (arrIdx p.1) ≠ orig then
        ffLoop g orig fill fuel
          { s with
            stack := rest
            touched := p :: s.touched }
      else
        ffLoop g orig fill fuel (ffPushNeighbors g p
          { s with
            stack := rest
            touched := p :: s.touched
            canvas := setCell s.canvas (arrIdx p.2) (arrIdx p.1) fill }) := by
  obtain ⟨c, v, stk, pc, t⟩ := s
  simp only at hstack
  subst hstack
  rfl

/-- Running the loop from any invariant state with enough fuel empties
the stack and preserves the invariant; the visited bitmap only
grows. -/
theorem ffLoop_run (g orig fill : Nat) (hg16 : g ≤ 16) :
    ∀ (fuel : Nat) (s : FFState), FFInv g orig fill s → ffMeasure s < fuel →
      (ffLoop g orig fill fuel s).stack = [] ∧
      FFInv g orig fill (ffLoop g orig fill fuel s) ∧
      (∀ y x : Fin 16, s.visited y x = true →
        (ffLoop g orig fill fuel s).visited y x = true) := by
  intro fuel
  induction fuel with
  | zero => intro s _ hm; omega
  | succ f ih =>
    intro s hInv hm
    rcases hstack : s.stack with _ | ⟨p, rest⟩
    · rw [ffLoop_nil g orig fill f s hstack]
      exact ⟨hstack, hInv, fun _ _ h => h⟩
    · have hpmem : p ∈ s.stack := hstack ▸ List.mem_cons_self _ _
      obtain ⟨hpx, hpy⟩ := hInv.stack_bounds p hpmem
      have hporig : s.canvas (arrIdx p.2) (arrIdx p.1) = orig := hInv.stack_orig p hpmem
      have hstep : ffLoop g orig fill (f + 1) s =
          ffLoop g orig fill f (ffPushNeighbors g p
            { s with
              stack := rest
              touched := p :: s.touched
              canvas := setCell s.canvas (arrIdx p.2) (arrIdx p.1) fill }) := by
        rw [ffLoop_cons g orig fill f s p rest hstack]
        rw [if_neg (by omega)]
        rw [if_neg (fun hcon => hcon hporig)]
      obtain ⟨hInv', hm'⟩ := ffStep g orig fill hg16 s hInv p rest hstack
      have hres := ih _ hInv' (by omega)
      rw [hstep]
      refine ⟨hres.1, hres.2.1, ?_⟩
      intro y x hv
      exact hres.2.2 y x (ffPushNeighbors_visited_mono _ _ _ _ _ hv)

/-- Any set of cells containing some in-bounds cell and closed under
in-bounds 4-neighbor steps contains the whole `[0,g) × [0,g)` grid. -/
theorem grid_connected (g : Nat) (P : Nat × Nat → Prop) (sx sy : Nat)
    (hsx : sx < g) (hsy : sy < g) (hstart : P (sx, sy))
    (hstep : ∀ p : Nat × Nat, P p → p.1 < g → p.2 < g →
      ∀ q : Nat × Nat, q.1 < g → q.2 < g → isNeighbor q p → P q) :
    ∀ x y, x < g → y < g → P (x, y) := by
  have hup : ∀ d, sy + d < g → P (sx, sy + d) := by
    intro d
    induction d with
    | zero => intro _; exact hstart
    | succ d ih =>
      intro hd
      exact hstep (sx, sy + d) (ih (by omega)) hsx (by omega)
        (sx, sy + (d + 1)) hsx hd (Or.inl ⟨rfl, Or.inr (by omega)⟩)
  have hdown : ∀ d, d ≤ sy → P (sx, sy - d) := by
    intro d
    induction d with
    | zero => intro _; exact hstart
    | succ d ih =>
      intro hd
      exact hstep (sx, sy - d) (ih (by omega)) hsx (by omega)
        (sx, sy - (d + 1)) hsx (by omega) (Or.inl ⟨rfl, Or.inl (by omega)⟩)
  have hcol : ∀ y, y < g → P (sx, y) := by
    intro y hy
    rcases le_or_lt sy y with h | h
    · have := hup (y - sy) (by omega)
      rwa [show sy + (y - sy) = y by omega] at this
    · have := hdown (sy - y) (by omega)
      rwa [show sy - (sy - y) = y by omega] at this
  intro x y hx hy
  have hright : ∀ d, sx + d < g → P (sx + d, y) := by
    intro d
    induction d with
    | zero => intro _; exact hcol y hy
    | succ d ih =>
      intro hd
      exact hstep (sx + d, y) (ih (by omega)) (by omega) hy
        (sx + (d + 1), y) hd hy (Or.inr ⟨rfl, Or.inr (by omega)⟩)
  have hleft : ∀ d, d ≤ sx → P (sx - d, y) := by
    intro d
    induction d with
    | zero => intro _; exact hcol y hy
    | succ d ih =>
      intro hd
      exact hstep (sx - d, y) (ih (by omega)) (by omega) hy
        (sx - (d + 1), y) (by omega) hy (Or.inr ⟨rfl, Or.inl (by omega)⟩)
  rcases le_or_lt sx x with h | h
  · have := hright (x - sx) (by omega)
    rwa [show sx + (x - sx) = x by omega] at this
  · have := hleft (sx - x) (by omega)
    rwa [show sx - (sx - x) = x by omega] at this

theorem arrIdx_val_self (y : Fin 16) : arrIdx y.val = y :=
  Fin.ext (Nat.mod_eq_of_lt y.isLt)

set_option maxRecDepth 40000 in
theorem boundsCard_eq (g : Nat) (hg : g = 8 ∨ g = 16) :
    (Finset.univ.filter (fun c : Fin 16 × Fin 16 => c.1.val < g ∧ c.2.val < g)).card
      = g * g := by
  rcases hg with h | h <;> subst h <;> decide

theorem visitedCard_empty (s : FFState) (h : s.visited = fun _ _ => false) :
    visitedCard s = 0 := by
  unfold visitedCard
  rw [h]
  simp

/-- Uniform-canvas flood fill: every in-bounds cell ends up with the
fill color and the push count is exactly `g * g`. -/
theorem floodFill_uniform (g : Nat) (hg : g = 8 ∨ g = 16) (c : Fin 16 → Fin 16 → Nat)
    (sx sy : Nat) (hsx : sx < g) (hsy : sy < g) (f : Nat)
    (hf : f ≠ c (arrIdx sy) (arrIdx sx))
    (huni : ∀ y x : Fin 16, y.val < g → x.val < g → c y x = c (arrIdx sy) (arrIdx sx)) :
    (∀ y x : Fin 16, y.val < g → x.val < g → (floodFill g c sx sy f).canvas y x = f) ∧
    (floodFill g c sx sy f).pushCount = g * g := by
  have hg16 : g ≤ 16 := by omega
  have hsx16 : sx < 16 := by omega
  have hsy16 : sy < 16 := by omega
  have hsxval : (arrIdx sx).val = sx := arrIdx_val _ hsx16
  have hsyval : (arrIdx sy).val = sy := arrIdx_val _ hsy16
  set co := c (arrIdx sy) (arrIdx sx) with hco
  have hff : floodFill g c sx sy f =
      ffLoop g co f FF_FUEL (ffPush (sx, sy)
        { canvas := c, visited := fun _ _ => false, stack := [], pushCount := 0,
          touched := [(sx, sy)] }) := by
    unfold floodFill
    rw [if_neg (fun h => hf h.symm)]
  set s0 : FFState :=
    { canvas := c, visited := fun _ _ => false, stack := [], pushCount := 0,
      touched := [(sx, sy)] } with hs0
  set s1 := ffPush (sx, sy) s0 with hs1
  have hs1canvas : s1.canvas = c := rfl
  have hInv1 : FFInv g co f s1 := by
    refine ⟨?_, ?_, ?_, ?_, ?_, ?_, ?_, ?_⟩
    · intro q hq
      rcases List.mem_singleton.mp hq with rfl
      exact ⟨hsx, hsy⟩
    · intro q hq
      rcases List.mem_singleton.mp hq with rfl
      exact setVisited_self _ _ _
    · exact List.nodup_singleton _
    · intro q hq
      rcases List.mem_singleton.mp hq with rfl
      exact huni _ _ (by simpa [hsyval]) (by simpa [hsxval])
    · intro y x
      show setVisited s0.visited (arrIdx sy) (arrIdx sx) y x = true ↔ _
      rw [setVisited_eq_true_iff]
      constructor
      · rintro (⟨hy, hx⟩ | h1)
        · subst hy
          subst hx
          left
          rw [hsxval, hsyval]
          exact List.mem_singleton.mpr rfl
        · exact absurd h1 (by simp [hs0])
      · rintro (h1 | ⟨hy, hx, hcf⟩)
        · obtain ⟨hx1, hy1⟩ := Prod.mk.inj (List.mem_singleton.mp h1)
          left
          exact ⟨Fin.ext (by rw [hsyval]; exact hy1),
            Fin.ext (by rw [hsxval]; exact hx1)⟩
        · exfalso
          exact hf (((huni y x hy hx).symm.trans hcf).symm)
    · intro y x hy hx
      left
      exact huni y x hy hx
    · intro y x hy hx hcf
      exfalso
      exact hf (((huni y x hy hx).symm.trans hcf).symm)
    · show s0.pushCount + 1 = _
      have := visitedCard_set s0 (arrIdx sy) (arrIdx sx) (by simp [hs0]) s1 rfl
      rw [this, visitedCard_empty s0 rfl]
  have hm1 : ffMeasure s1 < FF_FUEL := by
    have hvc : visitedCard s1 = 1 := by
      have := visitedCard_set s0 (arrIdx sy) (arrIdx sx) (by simp [hs0]) s1 rfl
      rw [this, visitedCard_empty s0 rfl]
    unfold ffMeasure
    rw [hvc]
    show 2 * (256 - 1) + s1.stack.length < 600
    show 2 * (256 - 1) + 1 < 600
    omega
  obtain ⟨hempty, hInvF, hmono⟩ := ffLoop_run g co f hg16 FF_FUEL s1 hInv1 hm1
  set final := ffLoop g co f FF_FUEL s1 with hfinal
  have hstart_vis : final.visited (arrIdx sy) (arrIdx sx) = true :=
    hmono _ _ (setVisited_self _ _ _)
  have hvis_iff : ∀ y x : Fin 16, final.visited y x = true ↔
      (y.val < g ∧ x.val < g ∧ final.canvas y x = f) := by
    intro y x
    rw [hInvF.visited_iff y x, hempty]
    simp
  have hstart_fill : final.canvas (arrIdx sy) (arrIdx sx) = f :=
    ((hvis_iff _ _).mp hstart_vis).2.2
  have hall : ∀ x y, x < g → y < g → final.canvas (arrIdx y) (arrIdx x) = f := by
    apply grid_connected g (fun p => final.canvas (arrIdx p.2) (arrIdx p.1) = f)
      sx sy hsx hsy hstart_fill
    intro p hp hpx hpy q hqx hqy hqn
    have hvis := hInvF.done_closed (arrIdx p.2) (arrIdx p.1)
      (by rwa [arrIdx_val _ (by omega)]) (by rwa [arrIdx_val _ (by omega)]) hp
      q hqx hqy (by rwa [arrIdx_val _ (by omega), arrIdx_val _ (by omega)])
    exact ((hvis_iff _ _).mp hvis).2.2
  rw [hff]
  constructor
  · intro y x hy hx
    have := hall x.val y.val hx hy
    rwa [arrIdx_val_self, arrIdx_val_self] at this
  · rw [hInvF.push_card]
    unfold visitedCard
    rw [show (Finset.univ.filter
        (fun c : Fin 16 × Fin 16 => final.visited c.1 c.2 = true))
        = Finset.univ.filter (fun c : Fin 16 × Fin 16 => c.1.val < g ∧ c.2.val < g) from ?_]
    · exact boundsCard_eq g hg
    · ext cc
      simp only [Finset.mem_filter, Finset.mem_univ, true_and]
      rw [hvis_iff cc.1 cc.2]
      constructor
      · rintro ⟨h1, h2, _⟩
        exact ⟨h1, h2⟩
      · rintro ⟨h1, h2⟩
        refine ⟨h1, h2, ?_⟩
        have := hall cc.2.val cc.1.val h2 h1
        rwa [arrIdx_val_self, arrIdx_val_self] at this

theorem ffPushNeighbors_canvas (g : Nat) (p : Nat × Nat) (s : FFState) :
    (ffPushNeighbors g p s).canvas = s.canvas := by
  unfold ffPushNeighbors
  rw [condPush_canvas, condPush_canvas, condPush_canvas, condPush_canvas]

theorem ffPushNeighbors_touched (g : Nat) (p : Nat × Nat) (s : FFState) :
    (ffPushNeighbors g p s).touched = s.touched := by
  unfold ffPushNeighbors
  rw [condPush_touched, condPush_touched, condPush_touched, condPush_touched]

theorem condPush_stack_mem (cond : Prop) [Decidable cond] (q : Nat × Nat)
    (s : FFState) : ∀ r ∈ (condPush cond q s).stack, (r = q ∧ cond) ∨ r ∈ s.stack := by
  unfold condPush ffPush
  split
  case isTrue h =>
    intro r hr
    rcases List.mem_cons.mp hr with hr | hr
    · exact Or.inl ⟨hr, h.1⟩
    · exact Or.inr hr
  case isFalse =>
    intro r hr
    exact Or.inr hr

theorem condPush_stack_length (cond : Prop) [Decidable cond] (q : Nat × Nat)
    (s : FFState) : (condPush cond q s).stack.length ≤ s.stack.length + 1 := by
  unfold condPush ffPush
  split
  · simp
  · omega

/-- Every stack entry after `ffPushNeighbors` is either an old entry
or an in-bounds 4-neighbor of the popped cell. -/
theorem ffPushNeighbors_stack_mem (g : Nat) (p : Nat × Nat)
    (hpx : p.1 < g) (hpy : p.2 < g) (s : FFState) :
    ∀ r ∈ (ffPushNeighbors g p s).stack,
      r ∈ s.stack ∨ (r.1 < g ∧ r.2 < g ∧ isNeighbor r (p.1, p.2)) := by
  unfold ffPushNeighbors
  intro r hr
  rcases condPush_stack_mem _ _ _ r hr with ⟨rfl, hc⟩ | hr
  · exact Or.inr ⟨by omega, hpy, Or.inr ⟨rfl, Or.inr rfl⟩⟩
  rcases condPush_stack_mem _ _ _ r hr with ⟨rfl, hc⟩ | hr
  · exact Or.inr ⟨by omega, hpy, Or.inr ⟨rfl, Or.inl (by omega)⟩⟩
  rcases condPush_stack_mem _ _ _ r hr with ⟨rfl, hc⟩ | hr
  · exact Or.inr ⟨hpx, by omega, Or.inl ⟨rfl, Or.inr rfl⟩⟩
  rcases condPush_stack_mem _ _ _ r hr with ⟨rfl, hc⟩ | hr
  · exact Or.inr ⟨hpx, by omega, Or.inl ⟨rfl, Or.inl (by omega)⟩⟩
  · exact Or.inl hr

theorem ffPushNeighbors_stack_length (g : Nat) (p : Nat × Nat) (s : FFState) :
    (ffPushNeighbors g p s).stack.length ≤ s.stack.length + 4 := by
  unfold ffPushNeighbors
  have h1 := condPush_stack_length (0 < p.2) (p.1, p.2 - 1) s
  have h2 := condPush_stack_length (p.2 < g - 1) (p.1, p.2 + 1)
    (condPush (0 < p.2) (p.1, p.2 - 1) s)
  have h3 := condPush_stack_length (0 < p.1) (p.1 - 1, p.2)
    (condPush (p.2 < g - 1) (p.1, p.2 + 1) (condPush (0 < p.2) (p.1, p.2 - 1) s))
  have h4 := condPush_stack_length (p.1 < g - 1) (p.1 + 1, p.2)
    (condPush (0 < p.1) (p.1 - 1, p.2)
      (condPush (p.2 < g - 1) (p.1, p.2 + 1) (condPush (0 < p.2) (p.1, p.2 - 1) s)))
  omega

/-- If every stack entry is out of bounds or off the original color,
the rest of the loop never writes the canvas again. -/
theorem ffLoop_noop (g orig fill : Nat) :
    ∀ (fuel : Nat) (s : FFState),
      (∀ q ∈ s.stack, (g ≤ q.1 ∨ g ≤ q.2) ∨ s.canvas (arrIdx q.2) (arrIdx q.1) ≠ orig) →
      s.stack.length < fuel → (ffLoop g orig fill fuel s).canvas = s.canvas := by
  intro fuel
  induction fuel with
  | zero => intro s _ h; omega
  | succ f ih =>
    intro s hprop hlen
    rcases hstack : s.stack with _ | ⟨p, rest⟩
    · rw [ffLoop_nil g orig fill f s hstack]
    · rw [ffLoop_cons g orig fill f s p rest hstack]
      have hlen2 : rest.length < f := by
        rw [hstack] at hlen
        simpa using hlen
      rcases hprop p (hstack ▸ List.mem_cons_self _ _) with hb | hc
      · rw [if_pos (by omega)]
        exact ih { s with stack := rest }
          (fun q hq => hprop q (hstack ▸ List.mem_cons_of_mem _ hq)) hlen2
      · by_cases hbp : p.1 < 0 ∨ g ≤ p.1 ∨ p.2 < 0 ∨ g ≤ p.2
        · rw [if_pos hbp]
          exact ih { s with stack := rest }
            (fun q hq => hprop q (hstack ▸ List.mem_cons_of_mem _ hq)) hlen2
        · rw [if_neg hbp, if_pos hc]
          exact ih _ (fun q hq => hprop q (hstack ▸ List.mem_cons_of_mem _ hq)) hlen2

/-- Isolated-cell flood fill: when every in-bounds neighbor of the
start cell holds a different color, only the start cell changes. -/
theorem floodFill_isolated (g : Nat) (hg : g = 8 ∨ g = 16) (c : Fin 16 → Fin 16 → Nat)
    (sx sy : Nat) (hsx : sx < g) (hsy : sy < g) (f : Nat)
    (hf : f ≠ c (arrIdx sy) (arrIdx sx))
    (hiso : ∀ q : Nat × Nat, q.1 < g → q.2 < g → isNeighbor q (sx, sy) →
      c (arrIdx q.2) (arrIdx q.1) ≠ c (arrIdx sy) (arrIdx sx)) :
    (floodFill g c sx sy f).canvas = setCell c (arrIdx sy) (arrIdx sx) f := by
  have hg16 : g ≤ 16 := by omega
  unfold floodFill
  rw [if_neg (fun h => hf h.symm)]
  rw [show FF_FUEL = 599 + 1 from rfl]
  rw [ffLoop_cons g (c (arrIdx sy) (arrIdx sx)) f 599 _ (sx, sy) [] rfl]
  rw [if_neg (by show ¬(sx < 0 ∨ g ≤ sx ∨ sy < 0 ∨ g ≤ sy); omega)]
  rw [if_neg (fun hcon => hcon rfl)]
  set sB : FFState :=
    { canvas := setCell c (arrIdx sy) (arrIdx sx) f
      visited := setVisited (fun _ _ => false) (arrIdx sy) (arrIdx sx)
      stack := []
      pushCount := 1
      touched := (sx, sy) :: [(sx, sy)] } with hsB
  show (ffLoop g (c (arrIdx sy) (arrIdx sx)) f 599 (ffPushNeighbors g (sx, sy) sB)).canvas
    = setCell c (arrIdx sy) (arrIdx sx) f
  have hcanvas2 : (ffPushNeighbors g (sx, sy) sB).canvas = sB.canvas :=
    ffPushNeighbors_canvas _ _ _
  rw [ffLoop_noop g (c (arrIdx sy) (arrIdx sx)) f 599 _ ?_ ?_]
  · rw [hcanvas2]
  · intro q hq
    rcases ffPushNeighbors_stack_mem g (sx, sy) hsx hsy sB q hq with hmem | ⟨hqx, hqy, hqn⟩
    · exact absurd hmem (by simp [hsB])
    · right
      rw [hcanvas2]
      have hqne : ¬(arrIdx q.2 = arrIdx sy ∧ arrIdx q.1 = arrIdx sx) := by
        rintro ⟨h2, h1⟩
        have hq2 : q.2 = sy := arrIdx_val_inj (by omega) (by omega) h2
        have hq1 : q.1 = sx := arrIdx_val_inj (by omega) (by omega) h1
        rcases hqn with ⟨_, hy | hy⟩ | ⟨_, hx | hx⟩ <;> omega
      have : sB.canvas (arrIdx q.2) (arrIdx q.1) = c (arrIdx q.2) (arrIdx q.1) :=
        setCell_ne _ _ _ _ _ _ hqne
      rw [this]
      exact hiso q hqx hqy hqn
  · have := ffPushNeighbors_stack_length g (sx, sy) sB
    have hlen0 : sB.stack.length = 0 := rfl
    omega

/-- Frame property of the loop: the touched log only gains in-bounds
cells and out-of-bounds canvas cells are never written. -/
theorem ffLoop_frame (g orig fill : Nat) (hg16 : g ≤ 16) :
    ∀ (fuel : Nat) (s : FFState),
      (∀ q ∈ (ffLoop g orig fill fuel s).touched, q ∈ s.touched ∨ (q.1 < g ∧ q.2 < g)) ∧
      (∀ y x : Fin 16, g ≤ x.val ∨ g ≤ y.val →
        (ffLoop g orig fill fuel s).canvas y x = s.canvas y x) := by
  intro fuel
  induction fuel with
  | zero => intro s; exact ⟨fun q hq => Or.inl hq, fun _ _ _ => rfl⟩
  | succ f ih =>
    intro s
    rcases hstack : s.stack with _ | ⟨p, rest⟩
    · rw [ffLoop_nil g orig fill f s hstack]
      exact ⟨fun q hq => Or.inl hq, fun _ _ _ => rfl⟩
    · rw [ffLoop_cons g orig fill f s p rest hstack]
      by_cases hbp : p.1 < 0 ∨ g ≤ p.1 ∨ p.2 < 0 ∨ g ≤ p.2
      · rw [if_pos hbp]
        exact ih { s with stack := rest }
      · rw [if_neg hbp]
        push_neg at hbp
        obtain ⟨-, hpx, -, hpy⟩ := hbp
        have hpxval : (arrIdx p.1).val = p.1 := arrIdx_val _ (by omega)
        have hpyval : (arrIdx p.2).val = p.2 := arrIdx_val _ (by omega)
        by_cases hcp : s.canvas (arrIdx p.2) (arrIdx p.1) ≠ orig
        · rw [if_pos hcp]
          refine ⟨fun q hq => ?_, (ih _).2⟩
          rcases (ih _).1 q hq with hq2 | hq2
          · rcases List.mem_cons.mp hq2 with hq3 | hq3
            · subst hq3
              exact Or.inr ⟨hpx, hpy⟩
            · exact Or.inl hq3
          · exact Or.inr hq2
        · rw [if_neg hcp]
          set sB : FFState :=
            { s with
              stack := rest
              touched := p :: s.touched
              canvas := setCell s.canvas (arrIdx p.2) (arrIdx p.1) fill } with hsB
          refine ⟨fun q hq => ?_, fun y x hyx => ?_⟩
          · rcases (ih _).1 q hq with hq2 | hq2
            · rw [ffPushNeighbors_touched] at hq2
              rcases List.mem_cons.mp hq2 with hq3 | hq3
              · subst hq3
                exact Or.inr ⟨hpx, hpy⟩
              · exact Or.inl hq3
            · exact Or.inr hq2
          · rw [(ih _).2 y x hyx, ffPushNeighbors_canvas]
            show setCell s.canvas (arrIdx p.2) (arrIdx p.1) fill y x = s.canvas y x
            apply setCell_ne
            rintro ⟨hy, hx⟩
            subst hy
            subst hx
            rw [hpxval, hpyval] at hyx
            omega

theorem floodFill_frame (g : Nat) (hg16 : g ≤ 16) (c : Fin 16 → Fin 16 → Nat)
    (sx sy : Nat) (hsx : sx < g) (hsy : sy < g) (f : Nat) :
    (∀ q ∈ (floodFill g c sx sy f).touched, q.1 < g ∧ q.2 < g) ∧
    (∀ y x : Fin 16, g ≤ x.val ∨ g ≤ y.val →
      (floodFill g c sx sy f).canvas y x = c y x) := by
  unfold floodFill
  by_cases h : c (arrIdx sy) (arrIdx sx) = f
  · rw [if_pos h]
    refine ⟨fun q hq => ?_, fun _ _ _ => rfl⟩
    obtain ⟨h1, h2⟩ := Prod.mk.inj (List.mem_singleton.mp hq)
    exact ⟨h1 ▸ hsx, h2 ▸ hsy⟩
  · rw [if_neg h]
    have hframe := ffLoop_frame g (c (arrIdx sy) (arrIdx sx)) f hg16 FF_FUEL
      (ffPush (sx, sy)
        { canvas := c, visited := fun _ _ => false, stack := [], pushCount := 0,
          touched := [(sx, sy)] })
    refine ⟨fun q hq => ?_, fun y x hyx => ?_⟩
    · rcases hframe.1 q hq with hq2 | hq2
      · obtain ⟨h1, h2⟩ := Prod.mk.inj (List.mem_singleton.mp hq2)
        exact ⟨h1 ▸ hsx, h2 ▸ hsy⟩
      · exact hq2
    · exact hframe.2 y x hyx

/-- C5: for grid sizes 8 and 16, a fill color differing from the start
cell's color, and a start cell inside `[0,g)²`: (a) on a uniformly
colored grid the flood fill sets every in-bounds cell to the fill
color with exactly `g²` pushes onto the explicit stack; (b) on a start
cell all of whose in-bounds neighbors hold different colors, only the
start cell changes; and (c) every canvas cell the algorithm reads or
writes lies inside `[0,g)` in both axes, so the unused 16×16 rows and
columns are untouched when `g = 8`. -/
theorem C5_floodFill_spec (g : Nat) (hg : g = 8 ∨ g = 16) (c : Fin 16 → Fin 16 → Nat)
    (sx sy : Nat) (hsx : sx < g) (hsy : sy < g) (f : Nat)
    (hf : f ≠ c (arrIdx sy) (arrIdx sx)) :
    ((∀ y x : Fin 16, y.val < g → x.val < g → c y x = c (arrIdx sy) (arrIdx sx)) →
      (∀ y x : Fin 16, y.val < g → x.val < g → (floodFill g c sx sy f).canvas y x = f) ∧
      (floodFill g c sx sy f).pushCount = g * g) ∧
    ((∀ q : Nat × Nat, q.1 < g → q.2 < g → isNeighbor q (sx, sy) →
        c (arrIdx q.2) (arrIdx q.1) ≠ c (arrIdx sy) (arrIdx sx)) →
      (floodFill g c sx sy f).canvas = setCell c (arrIdx sy) (arrIdx sx) f) ∧
    (∀ q ∈ (floodFill g c sx sy f).touched, q.1 < g ∧ q.2 < g) ∧
    (∀ y x : Fin 16, g ≤ x.val ∨ g ≤ y.val →
      (floodFill g c sx sy f).canvas y x = c y x) :=
  ⟨fun huni => floodFill_uniform g hg c sx sy hsx hsy f hf huni,
   fun hiso => floodFill_isolated g hg c sx sy hsx hsy f hf hiso,
   (floodFill_frame g (by omega) c sx sy hsx hsy f).1,
   (floodFill_frame g (by omega) c sx sy hsx hsy f).2⟩

/-- Exercises `C5_floodFill_spec`: filling a uniformly zero 8×8 grid
with color 1 fills cell (5,5) and pushes exactly 64 cells, and filling
the isolated cell (0,0) of `c5IsoCanvas` changes only that cell. -/
theorem C5_floodFill_spec_witness :
    (floodFill 8 (fun _ _ => 0) 0 0 1).pushCount = 8 * 8 ∧
    (floodFill 8 (fun _ _ => 0) 0 0 1).canvas ⟨5, by norm_num⟩ ⟨5, by norm_num⟩ = 1 ∧
    (floodFill 8 c5IsoCanvas 0 0 1).canvas = setCell c5IsoCanvas (arrIdx 0) (arrIdx 0) 1 := by
  refine ⟨((C5_floodFill_spec 8 (Or.inl rfl) (fun _ _ => 0) 0 0 (by norm_num) (by norm_num)
      1 (by norm_num)).1 (fun _ _ _ _ => rfl)).2,
    ((C5_floodFill_spec 8 (Or.inl rfl) (fun _ _ => 0) 0 0 (by norm_num) (by norm_num)
      1 (by norm_num)).1 (fun _ _ _ _ => rfl)).1 ⟨5, by norm_num⟩ ⟨5, by norm_num⟩
      (by norm_num) (by norm_num),
    (C5_floodFill_spec 8 (Or.inl rfl) c5IsoCanvas 0 0 (by norm_num) (by norm_num)
      1 (by decide)).2.1 ?_⟩
  intro q h1 h2 hn
  obtain ⟨q1, q2⟩ := q
  rcases hn with ⟨hx, hy | hy⟩ | ⟨hy, hx | hx⟩
  · omega
  · have hq1 : q1 = 0 := hx
    have hq2 : q2 = 1 := by omega
    subst hq1
    subst hq2
    decide
  · omega
  · have hq1 : q1 = 1 := by omega
    have hq2 : q2 = 0 := hy
    subst hq1
    subst hq2
    decide

end Bitmap16dx
